import Mathlib

/-!
Verification development for the Kaviron editor core (`src/lib/utils.ts` and the
schema in `types/schema`): a shallow embedding of the narrative-graph analyzer,
the episode/campaign/snapshot persistence engine, and the JSON import/export
codec, together with proofs of the specified properties.

Modelling conventions:
* `Record<string, T>` / plain JS objects are modelled as ordered association
  lists (JS string-keyed objects preserve insertion order for the keys used
  here); prototype-chain artifacts are below the level of this model.
* Dynamic JS values (episode records as stored/parsed) are modelled by the
  mutual inductive `Jx`.
* Timestamps: `new Date().toISOString()` values are carried as opaque strings
  (`nowIso`); `Date.now()` / `getTime()` comparisons are modelled by a `Nat`
  millisecond clock (`nowMs`).
* IndexedDB: a readwrite transaction buffers its writes and commits them when
  it completes; a request `error` event whose handler does not call
  `preventDefault()` aborts the transaction, discarding all buffered writes.
  The persistence operations are modelled as explicit state transformers on a
  `DB` value with boolean failure-injection arguments at the request
  boundaries the claims talk about.
-/

namespace Kaviron

/-! ### Dynamic JS/JSON values -/

mutual
/-- A dynamic JS value as it flows through the persistence layer
(`JSON.parse` results, records read back from the store). Mutual with
specialised list types so that all recursions are structural. -/
inductive Jx where
  | null : Jx
  | undef : Jx
  | bool : Bool → Jx
  | num : Int → Jx
  | str : String → Jx
  | arr : JxList → Jx
  | obj : JxFields → Jx

inductive JxList where
  | nil : JxList
  | cons : Jx → JxList → JxList

inductive JxFields where
  | nil : JxFields
  | cons : String → Jx → JxFields → JxFields
end

/-- JS truthiness test (`!v` is `jsFalsy v`): `undefined`, `null`, `false`,
`0` and `""` are falsy. Objects and arrays are always truthy. -/
def jsFalsy : Jx → Bool
  | .null => true
  | .undef => true
  | .bool b => !b
  | .num n => n == 0
  | .str s => s == ""
  | .arr _ => false
  | .obj _ => false

def jsTruthy (v : Jx) : Bool := !jsFalsy v

/-- Property access `o[k]` on the fields of an object: first matching key
(JS objects have unique keys), `undefined` when absent. -/
def JxFields.get : JxFields → String → Jx
  | .nil, _ => .undef
  | .cons k v fs, key => if k == key then v else fs.get key

/-- Property access `v[k]`: `undefined` on every non-object. -/
def Jx.get : Jx → String → Jx
  | .obj fs, key => fs.get key
  | _, _ => .undef

def JxFields.keys : JxFields → List String
  | .nil => []
  | .cons k _ fs => k :: fs.keys

def JxFields.hasKey (fs : JxFields) (key : String) : Bool :=
  fs.keys.contains key

/-- `{...o, key: v}` restricted to the fields of `o`: updates the value in
place when the key is present, otherwise appends at the end (JS spread
semantics for own enumerable keys). -/
def JxFields.spreadSet : JxFields → String → Jx → JxFields
  | .nil, key, v => .cons key v .nil
  | .cons k w fs, key, v =>
    if k == key then .cons k v fs else .cons k w (fs.spreadSet key v)

/-- `{...episode, key: v}`: fields of a non-object spread to nothing. -/
def Jx.spreadSet (e : Jx) (key : String) (v : Jx) : Jx :=
  match e with
  | .obj fs => .obj (fs.spreadSet key v)
  | _ => .obj (.cons key v .nil)

/-- `const { key, ...rest } = o` — the rest object: every field except `key`
(on a JS object the key occurs at most once). -/
def JxFields.removeField : JxFields → String → JxFields
  | .nil, _ => .nil
  | .cons k v fs, key =>
    if k == key then fs.removeField key else .cons k v (fs.removeField key)

def Jx.removeField (e : Jx) (key : String) : Jx :=
  match e with
  | .obj fs => .obj (fs.removeField key)
  | _ => e

/-! ### Typed scene-graph model and the Graph Analyzer

The analyzer functions in `utils.ts` operate on editor-built, schema-typed
data (`Record<string, Scene>`), modelled as an ordered association list. -/

structure Choice where
  text : String
  nextScene : String
deriving DecidableEq, Repr

structure Scene where
  id : String
  title : String
  text : List String
  choices : List Choice
deriving DecidableEq, Repr

/-- Ordered association list standing for `Record<string, Scene>`
(JS insertion order). -/
abbrev Scenes := List (String × Scene)

/-- `scenes[k]` as an option: first matching key. -/
def lookupKey {α : Type} : List (String × α) → String → Option α
  | [], _ => none
  | (k, v) :: rest, key => if k == key then some v else lookupKey rest key

/-- Every `choice.nextScene` occurring anywhere in the graph, in order. -/
def sceneTargets (scenes : Scenes) : List String :=
  scenes.flatMap (fun p => p.2.choices.map (fun c => c.nextScene))

/-- Every id the BFS queue can ever contain. -/
def bfsUniverse (scenes : Scenes) : List String :=
  "start" :: sceneTargets scenes

/-- One fuelled rendering of the `while (queue.length > 0)` loop of
`isSceneReachable`: pop the head; skip it if visited; mark it visited; skip
missing scenes; return `true` as soon as some choice of the current scene
points at the target, else enqueue the not-yet-visited successors.
`none` means the fuel ran out before the loop exited. -/
def bfsAux (scenes : Scenes) (target : String) :
    Nat → List String → List String → Option Bool
  | 0, _, _ => none
  | _ + 1, _, [] => some false
  | n + 1, visited, h :: rest =>
    if visited.contains h then
      bfsAux scenes target n visited rest
    else
      match lookupKey scenes h with
      | none => bfsAux scenes target n (h :: visited) rest
      | some sc =>
        if sc.choices.any (fun c => c.nextScene == target) then
          some true
        else
          bfsAux scenes target n (h :: visited)
            (rest ++ (sc.choices.filter
              (fun c => !(h :: visited).contains c.nextScene)).map
                (fun c => c.nextScene))

/-- Fuel that provably outlasts the loop (proved in `bfsAux_isSome_start`):
every iteration pops one queue entry, an unvisited pop pushes at most
`sceneTargets` many new ones, and at most `bfsUniverse` pops are unvisited. -/
def bfsFuel (scenes : Scenes) : Nat :=
  (bfsUniverse scenes).length * ((sceneTargets scenes).length + 1) + 2

/-- `isSceneReachable(scenes, sceneId)`: immediate `true` for `"start"`,
otherwise the BFS from `"start"`. The `getD false` branch is dead: the fuel
is sufficient (`bfsAux_isSome_start`). -/
def isSceneReachable (scenes : Scenes) (sceneId : String) : Bool :=
  if sceneId == "start" then true
  else (bfsAux scenes sceneId (bfsFuel scenes) [] ["start"]).getD false

/-- `findUnreachableScenes`: the keys whose reachability check fails. -/
def findUnreachableScenes (scenes : Scenes) : List String :=
  (scenes.map Prod.fst).filter (fun sceneId => !isSceneReachable scenes sceneId)

/-- `findBrokenLinks`: for every scene in insertion order, for every choice in
array order, record `(sceneId, choiceIndex)` when the choice target keys no
scene. -/
def findBrokenLinks (scenes : Scenes) : List (String × Nat) :=
  scenes.flatMap (fun p =>
    (p.2.choices.enum.filter
      (fun ic => (lookupKey scenes ic.2.nextScene).isNone)).map
        (fun ic => (p.1, ic.1)))

/-- Index of the first occurrence of a key in the association list (used to
state iteration-order properties). -/
def keyIdx : List (String × Scene) → String → Nat
  | [], _ => 0
  | (k, _) :: rest, key => if k == key then 0 else keyIdx rest key + 1

/-- Reachability along `choice.nextScene` edges: `"start"` is reachable, and
one choice-edge step from a reachable, existing scene reaches its target.
This is the specification-level notion the BFS is checked against. -/
inductive Reach (scenes : Scenes) : String → Prop where
  | start : Reach scenes "start"
  | step {a : String} {sc : Scene} {c : Choice} :
      Reach scenes a → lookupKey scenes a = some sc → c ∈ sc.choices →
      Reach scenes c.nextScene

/-- One `choice.nextScene` edge of the scene graph: scene `a` exists and one
of its choices targets `b`. -/
def choiceEdge (scenes : Scenes) (a b : String) : Prop :=
  ∃ sc c, lookupKey scenes a = some sc ∧ c ∈ sc.choices ∧ c.nextScene = b

/-! ### JSON codec

`JSON.stringify(value, null, 2)` and `JSON.parse`, modelled on `List Char`.
The serializer mirrors the host serializer for the values this program
stores: two-space indentation, `", "`-free compact `[]`/`\x7b\x7d` for empty
containers, fields with `undefined` values omitted, `undefined` array
elements printed as `null`. -/

def hexDigit (n : Nat) : Char :=
  if n < 10 then Char.ofNat (48 + n) else Char.ofNat (87 + n)

/-- Serialization of one character inside a JSON string literal. -/
def escChar (c : Char) : List Char :=
  if c == '"' then ['\\', '"']
  else if c == '\\' then ['\\', '\\']
  else if c == '\x08' then ['\\', 'b']
  else if c == '\x09' then ['\\', 't']
  else if c == '\x0a' then ['\\', 'n']
  else if c == '\x0c' then ['\\', 'f']
  else if c == '\x0d' then ['\\', 'r']
  else if c.toNat < 32 then
    ['\\', 'u', '0', '0', hexDigit (c.toNat / 16), hexDigit (c.toNat % 16)]
  else [c]

def escChars (l : List Char) : List Char := l.flatMap escChar

def lbrace : Char := '\x7b'
def rbrace : Char := '\x7d'

def spaces (n : Nat) : List Char := List.replicate n ' '

/-- Join serialized fragments with `",\n"` separators. -/
def joinFrags : List (List Char) → List Char
  | [] => []
  | [f] => f
  | f :: fs => f ++ ',' :: '\n' :: joinFrags fs

mutual
/-- `JSON.stringify(v, null, 2)` at nesting indent `i`, as a character list. -/
def jxToChars (i : Nat) : Jx → List Char
  | .null => ['n', 'u', 'l', 'l']
  | .undef => ['n', 'u', 'l', 'l']
  | .bool b => if b then ['t', 'r', 'u', 'e'] else ['f', 'a', 'l', 's', 'e']
  | .num n => (toString n).data
  | .str s => '"' :: (escChars s.data ++ ['"'])
  | .arr .nil => ['[', ']']
  | .arr (.cons x xs) =>
    '[' :: '\n' ::
      (joinFrags (jxArrItems (i + 2) (.cons x xs)) ++
        '\n' :: (spaces i ++ [']']))
  | .obj fs =>
    match jxObjItems (i + 2) fs with
    | [] => [lbrace, rbrace]
    | frags =>
      lbrace :: '\n' ::
        (joinFrags frags ++ '\n' :: (spaces i ++ [rbrace]))

/-- Serialized array elements, each on its own indented line. -/
def jxArrItems (i : Nat) : JxList → List (List Char)
  | .nil => []
  | .cons y ys => (spaces i ++ jxToChars i y) :: jxArrItems i ys

/-- Serialized object fields (`undefined`-valued fields omitted), each on its
own indented line as `"key": value`. -/
def jxObjItems (i : Nat) : JxFields → List (List Char)
  | .nil => []
  | .cons k v fs =>
    match v with
    | .undef => jxObjItems i fs
    | _ =>
      (spaces i ++ '"' :: (escChars k.data ++ '"' :: ':' :: ' ' ::
        jxToChars i v)) :: jxObjItems i fs
end

/-- `JSON.stringify(v, null, 2)`. -/
def jsonStringify (v : Jx) : String := String.mk (jxToChars 0 v)

def isWs (c : Char) : Bool :=
  c == ' ' || c == '\n' || c == '\t' || c == '\r'

def skipWs : List Char → List Char
  | [] => []
  | c :: cs => if isWs c then skipWs cs else c :: cs

/-- Value of a hexadecimal digit character. -/
def unhex (c : Char) : Option Nat :=
  if 48 ≤ c.toNat && c.toNat ≤ 57 then some (c.toNat - 48)
  else if 97 ≤ c.toNat && c.toNat ≤ 102 then some (c.toNat - 87)
  else if 65 ≤ c.toNat && c.toNat ≤ 70 then some (c.toNat - 55)
  else none

/-- Parse the body of a JSON string literal (after the opening quote),
returning the decoded characters and the input after the closing quote. -/
def parseStrBody : Nat → List Char → Option (List Char × List Char)
  | 0, _ => none
  | _ + 1, [] => none
  | n + 1, c :: cs =>
    if c == '"' then some ([], cs)
    else if c == '\\' then
      match cs with
      | [] => none
      | e :: cs' =>
        if e == 'u' then
          match cs' with
          | a :: b :: c₁ :: d :: cs'' =>
            match unhex a, unhex b, unhex c₁, unhex d with
            | some va, some vb, some vc, some vd =>
              (parseStrBody n cs'').map (fun r =>
                (Char.ofNat (((va * 16 + vb) * 16 + vc) * 16 + vd) :: r.1, r.2))
            | _, _, _, _ => none
          | _ => none
        else
          match
            (if e == '"' then some '"'
             else if e == '\\' then some '\\'
             else if e == '/' then some '/'
             else if e == 'b' then some '\x08'
             else if e == 't' then some '\x09'
             else if e == 'n' then some '\x0a'
             else if e == 'f' then some '\x0c'
             else if e == 'r' then some '\x0d'
             else none) with
          | some d => (parseStrBody n cs').map (fun r => (d :: r.1, r.2))
          | none => none
    else (parseStrBody n cs).map (fun r => (c :: r.1, r.2))

def digitVal (c : Char) : Option Nat :=
  if 48 ≤ c.toNat && c.toNat ≤ 57 then some (c.toNat - 48) else none

/-- Parse a run of decimal digits (at least one). -/
def parseDigits : Nat → Nat → List Char → Option (Nat × List Char)
  | 0, _, _ => none
  | _ + 1, acc, [] => some (acc, [])
  | n + 1, acc, c :: cs =>
    match digitVal c with
    | some d => parseDigits n (acc * 10 + d) cs
    | none => some (acc, c :: cs)

mutual
/-- Recursive-descent `JSON.parse` for the fragment this program emits
(null, booleans, integers, strings, arrays, objects). The fuel bounds the
recursion; `jsonParse` supplies provably sufficient fuel. -/
def parseVal : Nat → List Char → Option (Jx × List Char)
  | 0, _ => none
  | n + 1, cs =>
    match skipWs cs with
    | [] => none
    | c :: cs' =>
      if c == 'n' then
        match cs' with
        | 'u' :: 'l' :: 'l' :: rest => some (.null, rest)
        | _ => none
      else if c == 't' then
        match cs' with
        | 'r' :: 'u' :: 'e' :: rest => some (.bool true, rest)
        | _ => none
      else if c == 'f' then
        match cs' with
        | 'a' :: 'l' :: 's' :: 'e' :: rest => some (.bool false, rest)
        | _ => none
      else if c == '"' then
        (parseStrBody (n + 1) cs').map (fun r => (.str (String.mk r.1), r.2))
      else if c == '[' then
        match skipWs cs' with
        | ']' :: rest => some (.arr .nil, rest)
        | other => (parseArrRest n other).map (fun r => (.arr r.1, r.2))
      else if c == lbrace then
        match skipWs cs' with
        | d :: rest =>
          if d == rbrace then some (.obj .nil, rest)
          else (parseObjRest n (d :: rest)).map (fun r => (.obj r.1, r.2))
        | [] => none
      else if c == '-' then
        match cs' with
        | d :: rest =>
          match digitVal d with
          | some v =>
            (parseDigits (n + 1) v rest).map (fun r => (.num (-(r.1 : Int)), r.2))
          | none => none
        | [] => none
      else
        match digitVal c with
        | some v =>
          (parseDigits (n + 1) v cs').map (fun r => (.num (r.1 : Int), r.2))
        | none => none

/-- Elements of a non-empty array: value, then `,` and more or `]`. -/
def parseArrRest : Nat → List Char → Option (JxList × List Char)
  | 0, _ => none
  | n + 1, cs =>
    match parseVal n cs with
    | none => none
    | some (v, rest) =>
      match skipWs rest with
      | ']' :: rest' => some (.cons v .nil, rest')
      | ',' :: rest' =>
        (parseArrRest n rest').map (fun r => (.cons v r.1, r.2))
      | _ => none

/-- Fields of a non-empty object: `"key": value`, then `,` and more or the
closing brace. -/
def parseObjRest : Nat → List Char → Option (JxFields × List Char)
  | 0, _ => none
  | n + 1, cs =>
    match skipWs cs with
    | '"' :: cs' =>
      match parseStrBody (n + 1) cs' with
      | none => none
      | some (k, rest) =>
        match skipWs rest with
        | ':' :: rest' =>
          match parseVal n rest' with
          | none => none
          | some (v, rest'') =>
            match skipWs rest'' with
            | d :: rest₃ =>
              if d == rbrace then some (.cons (String.mk k) v .nil, rest₃)
              else if d == ',' then
                (parseObjRest n rest₃).map (fun r =>
                  (.cons (String.mk k) v r.1, r.2))
              else none
            | [] => none
        | _ => none
    | _ => none
end

/-- `JSON.parse(s)`: parse one value and require only whitespace after it. -/
def jsonParse (s : String) : Option Jx :=
  match parseVal (s.data.length + 1) s.data with
  | some (v, rest) => if (skipWs rest).isEmpty then some v else none
  | none => none

/-- Join compact fragments with `","`. -/
def joinComma : List (List Char) → List Char
  | [] => []
  | [f] => f
  | f :: fs => f ++ ',' :: joinComma fs

mutual
/-- `JSON.stringify(v)` without an indent argument (used for snapshot
payloads): compact output, no whitespace. -/
def jxToCharsC : Jx → List Char
  | .null => ['n', 'u', 'l', 'l']
  | .undef => ['n', 'u', 'l', 'l']
  | .bool b => if b then ['t', 'r', 'u', 'e'] else ['f', 'a', 'l', 's', 'e']
  | .num n => (toString n).data
  | .str s => '"' :: (escChars s.data ++ ['"'])
  | .arr xs => '[' :: (joinComma (jxArrItemsC xs) ++ [']'])
  | .obj fs => lbrace :: (joinComma (jxObjItemsC fs) ++ [rbrace])

def jxArrItemsC : JxList → List (List Char)
  | .nil => []
  | .cons y ys => jxToCharsC y :: jxArrItemsC ys

def jxObjItemsC : JxFields → List (List Char)
  | .nil => []
  | .cons k v fs =>
    match v with
    | .undef => jxObjItemsC fs
    | _ => ('"' :: (escChars k.data ++ '"' :: ':' :: jxToCharsC v)) ::
        jxObjItemsC fs
end

/-- `JSON.stringify(v)` (compact). -/
def jsonStringifyC (v : Jx) : String := String.mk (jxToCharsC v)

/-! ### Episode validation (`validateEpisode`)

Returns the message of the first `throw` the source performs, or `none` when
the episode passes. Modelling notes: the `x.trim() === ""` test is modelled
for string values and is `false` on other truthy values (where the source
would instead raise a `TypeError`, also surfaced as a thrown error);
`Object.keys`/`Object.entries` of a truthy non-object are modelled as empty. -/

def JxFields.toList : JxFields → List (String × Jx)
  | .nil => []
  | .cons k v fs => (k, v) :: fs.toList

/-- `Object.entries(v)` for the values this code iterates. -/
def Jx.entries : Jx → List (String × Jx)
  | .obj fs => fs.toList
  | _ => []

/-- Whitespace as stripped by `String.prototype.trim` (the ASCII portion —
the records at issue contain no exotic Unicode space). -/
def isJsWs (c : Char) : Bool :=
  c == ' ' || c == '\t' || c == '\n' || c == '\r' || c == '\x0b' || c == '\x0c'

/-- The test `x.trim() === ""` on a string: it trims to empty exactly when
every character is whitespace. -/
def jsTrimEmpty : Jx → Bool
  | .str s => s.data.all isJsWs
  | _ => false

/-- The guard `!x || x.trim() === ""` of the validators: a falsy `x` or an
all-whitespace string fails with the required-field message; on a truthy
non-string, `x.trim` is no function, so the call throws a `TypeError` whose
message becomes the surfaced validation failure. -/
def requiredOrTrimEmpty (v : Jx) (requiredMsg typeErrMsg : String) :
    Option String :=
  if jsFalsy v then some requiredMsg
  else
    match v with
    | .str _ => if jsTrimEmpty v then some requiredMsg else none
    | _ => some typeErrMsg

def JxList.toList : JxList → List Jx
  | .nil => []
  | .cons x xs => x :: xs.toList

/-- The per-choice checks, in source order, tracking the choice index. -/
def validateChoices (sceneId : String) : Nat → List Jx → Option String
  | _, [] => none
  | i, c :: rest =>
    match requiredOrTrimEmpty (c.get "text")
        s!"Choice text is required for choice {i} in scene {sceneId}"
        "choice.text.trim is not a function" with
    | some msg => some msg
    | none =>
      match requiredOrTrimEmpty (c.get "nextScene")
          s!"Next scene is required for choice {i} in scene {sceneId}"
          "choice.nextScene.trim is not a function" with
      | some msg => some msg
      | none => validateChoices sceneId (i + 1) rest

/-- The per-scene checks, in source order. -/
def validateSceneEntry (sceneId : String) (scene : Jx) : Option String :=
  match requiredOrTrimEmpty (scene.get "id")
      s!"Scene ID is required for scene {sceneId}"
      "scene.id.trim is not a function" with
  | some msg => some msg
  | none =>
  match requiredOrTrimEmpty (scene.get "title")
      s!"Scene title is required for scene {sceneId}"
      "scene.title.trim is not a function" with
  | some msg => some msg
  | none =>
    match scene.get "text" with
    | .arr _ =>
      match scene.get "choices" with
      | .arr cl => validateChoices sceneId 0 cl.toList
      | _ => some s!"Scene choices must be an array for scene {sceneId}"
    | _ => some s!"Scene text must be an array for scene {sceneId}"

def validateSceneEntries : List (String × Jx) → Option String
  | [] => none
  | (sceneId, scene) :: rest =>
    match validateSceneEntry sceneId scene with
    | some msg => some msg
    | none => validateSceneEntries rest

/-- `validateEpisode(episode)`: the message of the first violation thrown, or
`none` when the episode validates. It stops at the first defect. -/
def validateEpisode (episode : Jx) : Option String :=
  match requiredOrTrimEmpty (episode.get "title")
      "Episode title is required"
      "episode.title.trim is not a function" with
  | some msg => some msg
  | none =>
  if jsFalsy (episode.get "scenes") ||
      (episode.get "scenes").entries.isEmpty then
    some "Episode must have at least one scene"
  else if jsFalsy ((episode.get "scenes").get "start") then
    some "Episode must have a start scene"
  else validateSceneEntries (episode.get "scenes").entries

/-! ### Snapshots, the database state, and the persistence operations -/

/-- A record of the `snapshots` store. `timestamp` models the millisecond
value `new Date(timestamp).getTime()` the code sorts by. -/
structure Snapshot where
  id : String
  episodeId : String
  data : String
  timestamp : Nat
  type : String
deriving DecidableEq, Repr

/-- `type || "auto-save"`: the cursor-collection default for a falsy type. -/
def snapType (s : Snapshot) : String :=
  if s.type == "" then "auto-save" else s.type

/-- Insertion into a timestamp-descending list (the comparator
`(a, b) => getTime(b) - getTime(a)`). -/
def insertDesc (s : Snapshot) : List Snapshot → List Snapshot
  | [] => [s]
  | t :: ts =>
    if t.timestamp ≤ s.timestamp then s :: t :: ts else t :: insertDesc s ts

/-- Sort newest-first by timestamp. -/
def sortDesc : List Snapshot → List Snapshot
  | [] => []
  | s :: ss => insertDesc s (sortDesc ss)

/-- `cleanupSnapshots(episodeId, snapshotsStore)`: collect the episode's
snapshots, sort newest-first, and delete every `"auto-save"` entry past the
ten most recent; manual saves are never deleted. Returns the snapshot store
after the deletions. -/
def cleanupSnapshots (episodeId : String) (store : List Snapshot) :
    List Snapshot :=
  let snaps := store.filter (fun s => s.episodeId == episodeId)
  let sorted := sortDesc snaps
  let autoSaves := sorted.filter (fun s => snapType s == "auto-save")
  let toDelete := if autoSaves.length > 10 then autoSaves.drop 10 else []
  store.filter (fun s => !(toDelete.map Snapshot.id).contains s.id)

/-- The IndexedDB state: the three record stores the claims touch. Episode
and campaign records are stored as dynamic values keyed by their `id`
property (the stores' `keyPath`). -/
structure DB where
  episodes : List Jx
  campaigns : List Jx
  snapshots : List Snapshot

/-- An IndexedDB key-path key, coerced to a string key (the records this
program stores always carry string ids). -/
def jsToKey : Jx → String
  | .str s => s
  | .num n => toString n
  | _ => ""

def recKey (r : Jx) : String := jsToKey (r.get "id")

/-- `store.put(r)` on a `keyPath: "id"` store: replace the record with the
same key, else append. -/
def upsertRec : List Jx → Jx → List Jx
  | [], r => [r]
  | x :: xs, r => if recKey x == recKey r then r :: xs else x :: upsertRec xs r

/-- `store.get(id)`: the record with that key, if any. -/
def getRec (store : List Jx) (id : String) : Option Jx :=
  store.find? (fun x => recKey x == id)

/-- `store.delete(id)`: removes the record with that key; succeeds (as a
no-op) when the key is absent. -/
def deleteRec (store : List Jx) (id : String) : List Jx :=
  store.filter (fun x => recKey x != id)

/-- `saveEpisode(episode)` with failure injection at the two write requests.
`validateEpisode` is invoked by the source but a failure there is only a
console warning — the save continues regardless. The two writes share one
readwrite transaction: an injected request failure aborts it, so no buffed
write commits; on an aborted snapshot insert the promise has already been
resolved with the episode id. Returns the settled promise and the store
state after the transaction. -/
def saveEpisode (db : DB) (episode : Jx) (nowIso : String) (nowMs : Nat)
    (failPut failSnapAdd : Bool) : Except String String × DB :=
  if jsFalsy episode || jsFalsy (episode.get "id") then
    (.error "Invalid episode data: Missing ID", db)
  else
    let episodeWithTimestamp := episode.spreadSet "lastModified" (.str nowIso)
    if failPut then
      (.error "Failed to save episode", db)
    else
      let epId := jsToKey (episode.get "id")
      let snapshot : Snapshot :=
        { id := epId ++ "-" ++ toString nowMs
          episodeId := epId
          data := jsonStringifyC episodeWithTimestamp
          timestamp := nowMs
          type := "auto-save" }
      if failSnapAdd then
        (.ok epId, db)
      else
        (.ok epId,
          { db with
              episodes := upsertRec db.episodes episodeWithTimestamp
              snapshots :=
                cleanupSnapshots epId (db.snapshots ++ [snapshot]) })

/-- `getEpisode(id)`: an explicit error on a missing id, otherwise the
nullable point lookup. -/
def getEpisode (db : DB) (id : String) : Except String (Option Jx) :=
  if id == "" then .error "Episode ID is required"
  else .ok (getRec db.episodes id)

def getCampaign (db : DB) (id : String) : Except String (Option Jx) :=
  if id == "" then .error "Campaign ID is required"
  else .ok (getRec db.campaigns id)

/-- `deleteEpisode(id)`: explicit error on a missing id; otherwise deletes
the episode record (a no-op success when the key is unknown) and cascades
over every snapshot carrying that `episodeId`. -/
def deleteEpisode (db : DB) (id : String) : Except String Unit × DB :=
  if id == "" then (.error "Episode ID is required", db)
  else
    (.ok (),
      { db with
          episodes := deleteRec db.episodes id
          snapshots := db.snapshots.filter (fun s => s.episodeId != id) })

/-- `deleteCampaign(id)`: explicit error on a missing id; otherwise deletes
only the campaign record (no cascade), a no-op success on an unknown key. -/
def deleteCampaign (db : DB) (id : String) : Except String Unit × DB :=
  if id == "" then (.error "Campaign ID is required", db)
  else (.ok (), { db with campaigns := deleteRec db.campaigns id })

/-- `createManualSnapshot(episodeId)`: reads the persisted episode back and
stores a `"manual-save"` snapshot of it. -/
def createManualSnapshot (db : DB) (episodeId : String) (nowMs : Nat) :
    Except String String × DB :=
  if episodeId == "" then (.error "Episode ID is required", db)
  else
    match getRec db.episodes episodeId with
    | none => (.error "Episode not found", db)
    | some episode =>
      let snapId := episodeId ++ "-manual-" ++ toString nowMs
      (.ok snapId,
        { db with
            snapshots := db.snapshots ++
              [{ id := snapId, episodeId := episodeId
                 data := jsonStringifyC episode
                 timestamp := nowMs, type := "manual-save" }] })

/-- `restoreEpisodeFromSnapshot(snapshotId)`: explicit error on a missing id,
a not-found error on an unknown snapshot, a parse error on a bad payload;
otherwise re-stamps `lastModified` and upserts the decoded episode. -/
def restoreEpisodeFromSnapshot (db : DB) (snapshotId : String)
    (nowIso : String) : Except String String × DB :=
  if snapshotId == "" then (.error "Snapshot ID is required", db)
  else
    match db.snapshots.find? (fun s => s.id == snapshotId) with
    | none => (.error "Snapshot not found", db)
    | some snap =>
      match jsonParse snap.data with
      | none => (.error "Failed to parse snapshot data", db)
      | some episode =>
        let restored := episode.spreadSet "lastModified" (.str nowIso)
        (.ok (jsToKey (restored.get "id")),
          { db with episodes := upsertRec db.episodes restored })

/-- `exportEpisodeToJSON(id)`: strips `lastModified` via rest-destructuring
and pretty-prints with a two-space indent. -/
def exportEpisodeToJSON (db : DB) (id : String) : Except String String :=
  if id == "" then .error "Episode ID is required"
  else
    match getRec db.episodes id with
    | none => .error "Episode not found"
    | some episode =>
      .ok (jsonStringify (episode.removeField "lastModified"))

/-- `importEpisodeFromJSON(jsonString)`: parse, validate (a failure here is
re-thrown, refusing the import), then the normal save path; every failure is
wrapped in an import error message. -/
def importEpisodeFromJSON (db : DB) (jsonString : String) (nowIso : String)
    (nowMs : Nat) (failPut failSnapAdd : Bool) : Except String String × DB :=
  match jsonParse jsonString with
  | none => (.error "Failed to import episode: SyntaxError", db)
  | some episode =>
    match validateEpisode episode with
    | some msg => (.error ("Failed to import episode: " ++ msg), db)
    | none =>
      match saveEpisode db episode nowIso nowMs failPut failSnapAdd with
      | (.ok r, db') => (.ok r, db')
      | (.error msg, db') =>
        (.error ("Failed to import episode: " ++ msg), db')

/-! ### Concrete fixtures used by the witnesses and counterexamples -/

/-- The cycle graph `start -> A -> B -> A` of the cycle-safety property. -/
def cycGraph : Scenes :=
  [("start", { id := "start", title := "S", text := ["s"],
               choices := [{ text := "go", nextScene := "A" }] }),
   ("A", { id := "A", title := "A", text := ["a"],
           choices := [{ text := "go", nextScene := "B" }] }),
   ("B", { id := "B", title := "B", text := ["b"],
           choices := [{ text := "back", nextScene := "A" }] })]

/-- A graph whose only choice dangles: `start -> ghost` with no `ghost`. -/
def danglingGraph : Scenes :=
  [("start", { id := "start", title := "S", text := ["s"],
               choices := [{ text := "go", nextScene := "ghost" }] })]

/-- Auto-save snapshot fixture `i` of episode `ep1`, saved at time `i`. -/
def autoSnap (i : Nat) : Snapshot :=
  { id := "a" ++ toString i, episodeId := "ep1", data := "",
    timestamp := i, type := "auto-save" }

/-- Manual-save snapshot fixture `j` of episode `ep1`, saved at `20 + j`. -/
def manualSnap (j : Nat) : Snapshot :=
  { id := "m" ++ toString j, episodeId := "ep1", data := "",
    timestamp := 20 + j, type := "manual-save" }

/-- Fifteen auto-saves and three manual saves of one episode. -/
def retentionStore : List Snapshot :=
  (List.range 15).map (fun i => autoSnap (i + 1)) ++
    [manualSnap 1, manualSnap 2, manualSnap 3]

/-- A minimal episode record with id `ep1`. -/
def retentionEpisode : Jx := .obj (.cons "id" (.str "ep1") .nil)

/-! #### Codec side-conditions and text-shape helpers -/

mutual
/-- Values in the image of the episode schema: no `undefined`, no numbers
(episode records are string-leaved per the interchange format), object keys
unconstrained here (key uniqueness is hypothesised separately where it
matters). -/
def cleanVal : Jx → Bool
  | .null => true
  | .undef => false
  | .bool _ => true
  | .num _ => false
  | .str _ => true
  | .arr xs => cleanList xs
  | .obj fs => cleanFields fs

def cleanList : JxList → Bool
  | .nil => true
  | .cons x xs => cleanVal x && cleanList xs

def cleanFields : JxFields → Bool
  | .nil => true
  | .cons _ v fs => cleanVal v && cleanFields fs
end

mutual
/-- Fuel measure for the parser: enough units to parse the serialized
value. -/
def jsize : Jx → Nat
  | .null => 1
  | .undef => 1
  | .bool _ => 1
  | .num _ => 1
  | .str s => s.data.length + 1
  | .arr xs => 1 + jsizeL xs
  | .obj fs => 1 + jsizeF fs

def jsizeL : JxList → Nat
  | .nil => 1
  | .cons x xs => 1 + jsize x + jsizeL xs

def jsizeF : JxFields → Nat
  | .nil => 1
  | .cons k v fs => 1 + k.data.length + jsize v + jsizeF fs
end

/-- The serialized text that follows one array element: either the closing
line of the array (indent `i`) or a comma and the next element line (indent
`j`). -/
def arrSep (i j : Nat) : JxList → List Char → List Char
  | .nil, rest => '\n' :: (spaces i ++ (']' :: rest))
  | .cons y ys, rest =>
    ',' :: '\n' :: (spaces j ++ (jxToChars j y ++ arrSep i j ys rest))

/-- The serialized text that follows one object field: the closing line or a
comma and the next `"key": value` line. -/
def objSep (i j : Nat) : JxFields → List Char → List Char
  | .nil, rest => '\n' :: (spaces i ++ (rbrace :: rest))
  | .cons k v fs, rest =>
    ',' :: '\n' :: (spaces j ++ ('"' :: (escChars k.data ++
      '"' :: ':' :: ' ' :: (jxToChars j v ++ objSep i j fs rest))))

/-- A whitespace-only character list. -/
def wsOnly (w : List Char) : Bool := w.all isWs

/-- A structurally complete scene record under a key other than `start`. -/
def sceneOtherJx : Jx :=
  .obj (.cons "id" (.str "other") (.cons "title" (.str "T")
    (.cons "text" (.arr .nil) (.cons "choices" (.arr .nil) .nil))))

/-- An episode with two simultaneous structural defects: no `title` field and
no `start` scene. -/
def badEpisode : Jx :=
  .obj (.cons "id" (.str "e1")
    (.cons "scenes" (.obj (.cons "other" sceneOtherJx .nil)) .nil))

/-- A stored-but-invalid episode: it carries only an id, so it fails
validation on the missing title, yet `saveEpisode` persists it. -/
def invalidEpisode : Jx := .obj (.cons "id" (.str "bad1") .nil)

/-- A minimal episode record with id `e1`. -/
def tinyEpisode : Jx := .obj (.cons "id" (.str "e1") .nil)

def emptyDB : DB := ⟨[], [], []⟩

/-- A fully valid `start` scene record. -/
def validSceneJx : Jx :=
  .obj (.cons "id" (.str "start") (.cons "title" (.str "Start")
    (.cons "text" (.arr (.cons (.str "p") .nil))
      (.cons "choices" (.arr .nil) .nil))))

/-- A stored episode record that passes validation, including the internal
`lastModified` bookkeeping field. -/
def validEpisodeFields : JxFields :=
  .cons "id" (.str "e1") (.cons "title" (.str "T")
    (.cons "scenes" (.obj (.cons "start" validSceneJx .nil))
      (.cons "lastModified" (.str "old") .nil)))

/-- A store holding exactly the valid episode. -/
def roundtripDB : DB := ⟨[.obj validEpisodeFields], [], []⟩

/-- A store holding exactly the episode `e1`. -/
def oneEpisodeDB : DB := ⟨[tinyEpisode], [], []⟩

/-! ### Auxiliary counting for the BFS termination argument -/

/-- How many ids of the BFS universe the visited set has not yet absorbed. -/
def unvisitedCount (scenes : Scenes) (visited : List String) : Nat :=
  ((bfsUniverse scenes).filter (fun x => !visited.contains x)).length

/-! ## Theorems -/

/-! ### List helpers -/

theorem filter_length_mono {α : Type} {p q : α → Bool}
    (himp : ∀ x, q x = true → p x = true) :
    ∀ l : List α, (l.filter q).length ≤ (l.filter p).length := by
  intro l
  induction l with
  | nil => simp
  | cons b bs ih =>
    by_cases hq : q b = true
    · simp [List.filter_cons, hq, himp b hq, Nat.succ_le_succ ih]
    · have hq' : q b = false := by simpa using hq
      by_cases hp : p b = true
      · simp only [List.filter_cons, hq', hp]
        simp only [Bool.false_eq_true, if_false, if_true, List.length_cons]
        exact Nat.le_succ_of_le ih
      · have hp' : p b = false := by simpa using hp
        simpa [List.filter_cons, hq', hp'] using ih

theorem filter_length_lt {α : Type} {p q : α → Bool}
    (himp : ∀ x, q x = true → p x = true) {a : α} :
    ∀ {l : List α}, a ∈ l → p a = true → q a = false →
      (l.filter q).length < (l.filter p).length := by
  intro l
  induction l with
  | nil => intro h; cases h
  | cons b bs ih =>
    intro ha hpa hqa
    rcases List.mem_cons.mp ha with hab | ha'
    · subst hab
      simp only [List.filter_cons, hqa, hpa, Bool.false_eq_true, if_false,
        if_true, List.length_cons]
      exact Nat.lt_succ_of_le (filter_length_mono himp bs)
    · by_cases hq : q b = true
      · simp only [List.filter_cons, hq, himp b hq, if_true, List.length_cons]
        exact Nat.succ_lt_succ (ih ha' hpa hqa)
      · have hq' : q b = false := by simpa using hq
        by_cases hp : p b = true
        · simp only [List.filter_cons, hq', hp, Bool.false_eq_true, if_false,
            if_true, List.length_cons]
          exact Nat.lt_succ_of_lt (ih ha' hpa hqa)
        · have hp' : p b = false := by simpa using hp
          simpa [List.filter_cons, hq', hp'] using ih ha' hpa hqa

theorem lookupKey_mem {α : Type} {v : α} :
    ∀ {l : List (String × α)} {k : String},
      lookupKey l k = some v → (k, v) ∈ l := by
  intro l
  induction l with
  | nil => intro k h; simp [lookupKey] at h
  | cons p rest ih =>
    intro k h
    rw [lookupKey] at h
    by_cases hk : p.1 == k
    · simp only [hk, if_true, Option.some.injEq] at h
      have : p = (k, v) := by
        rcases p with ⟨k', v'⟩
        simp only at h
        have : k' = k := by simpa using hk
        simp [this, h]
      simp [this]
    · simp only [hk, if_false] at h
      exact List.mem_cons_of_mem _ (ih h)

theorem mem_sceneTargets {scenes : Scenes} {k : String} {sc : Scene}
    (hmem : (k, sc) ∈ scenes) {c : Choice} (hc : c ∈ sc.choices) :
    c.nextScene ∈ sceneTargets scenes := by
  unfold sceneTargets
  exact List.mem_flatMap.mpr ⟨(k, sc), hmem, List.mem_map.mpr ⟨c, hc, rfl⟩⟩

theorem choices_length_le {scenes : Scenes} {k : String} {sc : Scene}
    (hmem : (k, sc) ∈ scenes) :
    sc.choices.length ≤ (sceneTargets scenes).length := by
  unfold sceneTargets
  induction scenes with
  | nil => cases hmem
  | cons p rest ih =>
    rcases List.mem_cons.mp hmem with h | h
    · subst h
      simp only [List.flatMap_cons, List.length_append, List.length_map]
      exact Nat.le_add_right _ _
    · simp only [List.flatMap_cons, List.length_append]
      exact Nat.le_trans (ih h) (Nat.le_add_left _ _)

theorem contains_iff_mem {l : List String} {a : String} :
    l.contains a = true ↔ a ∈ l := by
  simp

/-! ### BFS termination: the fuel in `isSceneReachable` is sufficient -/

theorem unvisited_step {scenes : Scenes} {visited : List String} {h : String}
    (hU : h ∈ bfsUniverse scenes) (hvis : visited.contains h = false) :
    unvisitedCount scenes (h :: visited) + 1 ≤ unvisitedCount scenes visited := by
  apply Nat.succ_le_of_lt
  apply filter_length_lt (a := h) ?imp hU ?p ?q
  case imp =>
    intro x hx
    simp only [Bool.not_eq_true', Bool.eq_false_iff, Ne, contains_iff_mem] at hx ⊢
    intro hmem
    exact hx (List.mem_cons_of_mem _ hmem)
  case p => simpa using hvis
  case q => simp

theorem bfsAux_isSome (scenes : Scenes) (target : String) :
    ∀ (n : Nat) (visited queue : List String),
      (∀ x ∈ queue, x ∈ bfsUniverse scenes) →
      unvisitedCount scenes visited * ((sceneTargets scenes).length + 1) +
        queue.length + 1 ≤ n →
      (bfsAux scenes target n visited queue).isSome = true := by
  intro n
  induction n with
  | zero => intro visited queue _ hn; omega
  | succ n ih =>
    intro visited queue hq hn
    match queue with
    | [] => simp [bfsAux]
    | h :: rest =>
      rw [bfsAux]
      by_cases hvis : visited.contains h = true
      · simp only [hvis, if_true]
        apply ih _ _ (fun x hx => hq x (List.mem_cons_of_mem _ hx))
        simp only [List.length_cons] at hn
        omega
      · have hvis' : visited.contains h = false := by simpa using hvis
        simp only [hvis', Bool.false_eq_true, if_false]
        have hU : h ∈ bfsUniverse scenes := hq h (List.mem_cons_self _ _)
        have hcount := unvisited_step hU hvis'
        have hmul : (unvisitedCount scenes (h :: visited) + 1) *
            ((sceneTargets scenes).length + 1) ≤
            unvisitedCount scenes visited * ((sceneTargets scenes).length + 1) :=
          Nat.mul_le_mul_right _ hcount
        rw [Nat.succ_mul] at hmul
        cases hlk : lookupKey scenes h with
        | none =>
          apply ih _ _ (fun x hx => hq x (List.mem_cons_of_mem _ hx))
          simp only [List.length_cons] at hn
          omega
        | some sc =>
          by_cases hany : sc.choices.any (fun c => c.nextScene == target) = true
          · simp [hany]
          · have hany' : sc.choices.any (fun c => c.nextScene == target) = false := by
              simpa using hany
            simp only [hany', Bool.false_eq_true, if_false]
            have hlen : ((sc.choices.filter
                (fun c => !(h :: visited).contains c.nextScene)).map
                  (fun c => c.nextScene)).length ≤
                (sceneTargets scenes).length := by
              rw [List.length_map]
              exact Nat.le_trans (List.length_filter_le _ _)
                (choices_length_le (lookupKey_mem hlk))
            apply ih
            · intro x hx
              rcases List.mem_append.mp hx with hx | hx
              · exact hq x (List.mem_cons_of_mem _ hx)
              · rcases List.mem_map.mp hx with ⟨c, hc, rfl⟩
                exact List.mem_cons_of_mem _
                  (mem_sceneTargets (lookupKey_mem hlk)
                    (List.mem_of_mem_filter hc))
            · simp only [List.length_append, List.length_cons] at hn ⊢
              omega

/-- More fuel never changes a settled BFS result. -/
theorem bfsAux_mono (scenes : Scenes) (target : String) :
    ∀ (n m : Nat) (visited queue : List String), n ≤ m → ∀ {r : Bool},
      bfsAux scenes target n visited queue = some r →
      bfsAux scenes target m visited queue = some r := by
  intro n
  induction n with
  | zero => intro m v q _ r h; simp [bfsAux] at h
  | succ n ih =>
    intro m v q hnm r h
    cases m with
    | zero => omega
    | succ m =>
      have hnm' : n ≤ m := by omega
      match q with
      | [] => simpa [bfsAux] using h
      | hd :: rest =>
        rw [bfsAux] at h ⊢
        by_cases hvis : v.contains hd = true
        · simp only [hvis, if_true] at h ⊢
          exact ih m _ _ hnm' h
        · have hv' : v.contains hd = false := by simpa using hvis
          simp only [hv', Bool.false_eq_true, if_false] at h ⊢
          cases hlk : lookupKey scenes hd with
          | none =>
            simp only [hlk] at h ⊢
            exact ih m _ _ hnm' h
          | some sc =>
            simp only [hlk] at h ⊢
            by_cases hany : sc.choices.any (fun c => c.nextScene == target) = true
            · simpa [hany] using h
            · have hany' : sc.choices.any (fun c => c.nextScene == target) = false := by
                simpa using hany
              simp only [hany', Bool.false_eq_true, if_false] at h ⊢
              exact ih m _ _ hnm' h

/-- BFS soundness: a `true` answer from a queue of reachable ids means the
target is reachable. -/
theorem bfsAux_sound (scenes : Scenes) (target : String) :
    ∀ (n : Nat) (visited queue : List String),
      (∀ x ∈ queue, Reach scenes x) →
      bfsAux scenes target n visited queue = some true →
      Reach scenes target := by
  intro n
  induction n with
  | zero => intro v q _ h; simp [bfsAux] at h
  | succ n ih =>
    intro v q hq h
    match q with
    | [] => simp [bfsAux] at h
    | hd :: rest =>
      rw [bfsAux] at h
      by_cases hvis : v.contains hd = true
      · simp only [hvis, if_true] at h
        exact ih _ _ (fun x hx => hq x (List.mem_cons_of_mem _ hx)) h
      · have hv' : v.contains hd = false := by simpa using hvis
        simp only [hv', Bool.false_eq_true, if_false] at h
        cases hlk : lookupKey scenes hd with
        | none =>
          simp only [hlk] at h
          exact ih _ _ (fun x hx => hq x (List.mem_cons_of_mem _ hx)) h
        | some sc =>
          simp only [hlk] at h
          by_cases hany : sc.choices.any (fun c => c.nextScene == target) = true
          · rcases List.any_eq_true.mp hany with ⟨c, hc, hct⟩
            have hct' : c.nextScene = target := by simpa using hct
            exact hct' ▸ Reach.step (hq hd (List.mem_cons_self _ _)) hlk hc
          · have hany' : sc.choices.any (fun c => c.nextScene == target) = false := by
              simpa using hany
            simp only [hany', Bool.false_eq_true, if_false] at h
            apply ih _ _ ?inv h
            intro x hx
            rcases List.mem_append.mp hx with hx | hx
            · exact hq x (List.mem_cons_of_mem _ hx)
            · rcases List.mem_map.mp hx with ⟨c, hc, rfl⟩
              exact Reach.step (hq hd (List.mem_cons_self _ _)) hlk
                (List.mem_of_mem_filter hc)

/-- BFS completeness: a `false` answer under the traversal invariants means
the target is unreachable. -/
theorem bfsAux_complete (scenes : Scenes) (target : String)
    (htarget : target ≠ "start") :
    ∀ (n : Nat) (visited queue : List String),
      bfsAux scenes target n visited queue = some false →
      ("start" ∈ visited ∨ "start" ∈ queue) →
      (∀ v ∈ visited, ∀ sc, lookupKey scenes v = some sc →
        ∀ c ∈ sc.choices, c.nextScene ≠ target ∧
          (c.nextScene ∈ visited ∨ c.nextScene ∈ queue)) →
      ¬ Reach scenes target := by
  intro n
  induction n with
  | zero => intro v q h; simp [bfsAux] at h
  | succ n ih =>
    intro v q h hstart hclosed
    match q with
    | [] =>
      have hstart' : "start" ∈ v := by
        rcases hstart with hs | hs
        · exact hs
        · cases hs
      intro hR
      have hvall : ∀ x, Reach scenes x → x ∈ v := by
        intro x hx
        induction hx with
        | start => exact hstart'
        | step hRa hsc hc iha =>
          rcases (hclosed _ iha _ hsc _ hc).2 with hmem | hmem
          · exact hmem
          · cases hmem
      cases hR with
      | start => exact htarget rfl
      | step hRa hsc hc =>
        exact (hclosed _ (hvall _ hRa) _ hsc _ hc).1 rfl
    | hd :: rest =>
      rw [bfsAux] at h
      by_cases hvis : v.contains hd = true
      · simp only [hvis, if_true] at h
        have hdv : hd ∈ v := contains_iff_mem.mp hvis
        apply ih _ _ h
        · rcases hstart with hs | hs
          · exact Or.inl hs
          · rcases List.mem_cons.mp hs with hs | hs
            · exact Or.inl (hs ▸ hdv)
            · exact Or.inr hs
        · intro w hw sc hsc c hc
          refine ⟨(hclosed w hw sc hsc c hc).1, ?loc⟩
          rcases (hclosed w hw sc hsc c hc).2 with hmem | hmem
          · exact Or.inl hmem
          · rcases List.mem_cons.mp hmem with hmem | hmem
            · exact Or.inl (hmem ▸ hdv)
            · exact Or.inr hmem
      · have hv' : v.contains hd = false := by simpa using hvis
        simp only [hv', Bool.false_eq_true, if_false] at h
        cases hlk : lookupKey scenes hd with
        | none =>
          simp only [hlk] at h
          apply ih _ _ h
          · rcases hstart with hs | hs
            · exact Or.inl (List.mem_cons_of_mem _ hs)
            · rcases List.mem_cons.mp hs with hs | hs
              · exact Or.inl (hs ▸ List.mem_cons_self _ _)
              · exact Or.inr hs
          · intro w hw sc hsc c hc
            rcases List.mem_cons.mp hw with hw | hw
            · subst hw
              rw [hlk] at hsc
              cases hsc
            · refine ⟨(hclosed w hw sc hsc c hc).1, ?loc2⟩
              rcases (hclosed w hw sc hsc c hc).2 with hmem | hmem
              · exact Or.inl (List.mem_cons_of_mem _ hmem)
              · rcases List.mem_cons.mp hmem with hmem | hmem
                · exact Or.inl (hmem ▸ List.mem_cons_self _ _)
                · exact Or.inr hmem
        | some sc =>
          simp only [hlk] at h
          by_cases hany : sc.choices.any (fun c => c.nextScene == target) = true
          · simp [hany] at h
          · have hany' : sc.choices.any (fun c => c.nextScene == target) = false := by
              simpa using hany
            simp only [hany', Bool.false_eq_true, if_false] at h
            have hnotar : ∀ c ∈ sc.choices, c.nextScene ≠ target := by
              intro c hc
              have := List.any_eq_false.mp hany' c hc
              simpa using this
            apply ih _ _ h
            · rcases hstart with hs | hs
              · exact Or.inl (List.mem_cons_of_mem _ hs)
              · rcases List.mem_cons.mp hs with hs | hs
                · exact Or.inl (hs ▸ List.mem_cons_self _ _)
                · exact Or.inr (List.mem_append_left _ hs)
            · intro w hw sc₂ hsc₂ c hc
              rcases List.mem_cons.mp hw with hw | hw
              · rw [hw, hlk] at hsc₂
                obtain rfl : sc = sc₂ := by
                  simpa using hsc₂
                refine ⟨hnotar c hc, ?loc3⟩
                by_cases hcv : (hd :: v).contains c.nextScene = true
                · exact Or.inl (contains_iff_mem.mp hcv)
                · have hcv' : (hd :: v).contains c.nextScene = false := by
                    simpa using hcv
                  refine Or.inr (List.mem_append_right _ ?push)
                  exact List.mem_map.mpr
                    ⟨c, List.mem_filter.mpr ⟨hc, by simpa using hcv'⟩, rfl⟩
              · refine ⟨(hclosed w hw sc₂ hsc₂ c hc).1, ?loc4⟩
                rcases (hclosed w hw sc₂ hsc₂ c hc).2 with hmem | hmem
                · exact Or.inl (List.mem_cons_of_mem _ hmem)
                · rcases List.mem_cons.mp hmem with hmem | hmem
                  · exact Or.inl (hmem ▸ List.mem_cons_self _ _)
                  · exact Or.inr (List.mem_append_left _ hmem)

/-- The fuel supplied by `isSceneReachable` outlasts the loop. -/
theorem bfsAux_isSome_start (scenes : Scenes) (target : String) :
    (bfsAux scenes target (bfsFuel scenes) [] ["start"]).isSome = true := by
  apply bfsAux_isSome
  · intro x hx
    rcases List.mem_singleton.mp hx with rfl
    exact List.mem_cons_self _ _
  · have hcnt : unvisitedCount scenes [] = (bfsUniverse scenes).length := by
      simp [unvisitedCount]
    rw [hcnt]
    unfold bfsFuel
    simp only [List.length_singleton]
    omega

/-- The boolean BFS agrees with the inductive reachability predicate. -/
theorem isSceneReachable_iff (scenes : Scenes) (target : String) :
    isSceneReachable scenes target = true ↔ Reach scenes target := by
  unfold isSceneReachable
  by_cases ht : target == "start"
  · have ht' : target = "start" := by simpa using ht
    subst ht'
    simpa using Reach.start
  · have ht' : target ≠ "start" := by simpa using ht
    simp only [ht, Bool.false_eq_true, if_false]
    obtain ⟨r, hr⟩ :=
      Option.isSome_iff_exists.mp (bfsAux_isSome_start scenes target)
    rw [hr]
    simp only [Option.getD_some]
    constructor
    · intro hrt
      subst hrt
      apply bfsAux_sound scenes target _ _ _ _ hr
      intro x hx
      rcases List.mem_singleton.mp hx with rfl
      exact Reach.start
    · intro hR
      by_contra hrt
      have hrf : r = false := by
        cases r
        · rfl
        · exact absurd rfl hrt
      subst hrf
      exact bfsAux_complete scenes target ht' _ _ _ hr
        (Or.inr (List.mem_singleton.mpr rfl))
        (by intro v hv; cases hv) hR

/-- Inductive reachability is exactly "a finite path of choice edges from
`start`" (reflexive-transitive closure of the edge relation). -/
theorem reach_iff_path (scenes : Scenes) (t : String) :
    Reach scenes t ↔ Relation.ReflTransGen (choiceEdge scenes) "start" t := by
  constructor
  · intro h
    induction h with
    | start => exact Relation.ReflTransGen.refl
    | step hRa hsc hc iha =>
      exact Relation.ReflTransGen.tail iha ⟨_, _, hsc, hc, rfl⟩
  · intro h
    induction h with
    | refl => exact Reach.start
    | tail hab hedge ihb =>
      rcases hedge with ⟨sc, c, hsc, hc, rfl⟩
      exact Reach.step ihb hsc hc

theorem mem_findUnreachableScenes_iff {scenes : Scenes} {sid : String} :
    sid ∈ findUnreachableScenes scenes ↔
      sid ∈ scenes.map Prod.fst ∧ isSceneReachable scenes sid = false := by
  unfold findUnreachableScenes
  rw [List.mem_filter]
  simp

/-- C3: for every scene graph, `findUnreachableScenes` never includes
`"start"`, and a scene id present in the graph is absent from the result iff
there is a finite path of `choice.nextScene` edges from the `"start"` scene
to it (the reflexive case covering the id `"start"` itself). -/
theorem findUnreachableScenes_reachability (scenes : Scenes) :
    "start" ∉ findUnreachableScenes scenes ∧
    ∀ sid ∈ scenes.map Prod.fst,
      (sid ∉ findUnreachableScenes scenes ↔
        Relation.ReflTransGen (choiceEdge scenes) "start" sid) := by
  constructor
  · intro hmem
    have h := (mem_findUnreachableScenes_iff.mp hmem).2
    rw [isSceneReachable] at h
    simp at h
  · intro sid hsid
    rw [← reach_iff_path, ← isSceneReachable_iff]
    constructor
    · intro hnot
      by_contra hfalse
      have : isSceneReachable scenes sid = false := by
        cases h : isSceneReachable scenes sid
        · rfl
        · exact absurd h hfalse
      exact hnot (mem_findUnreachableScenes_iff.mpr ⟨hsid, this⟩)
    · intro htrue hmem
      have := (mem_findUnreachableScenes_iff.mp hmem).2
      rw [htrue] at this
      cases this

/-- Witness for C3 at the concrete cycle graph and the id `"A"`. -/
theorem findUnreachableScenes_reachability_witness :
    "A" ∈ cycGraph.map Prod.fst ∧
    ("A" ∉ findUnreachableScenes cycGraph ↔
      Relation.ReflTransGen (choiceEdge cycGraph) "start" "A") :=
  ⟨by decide, (findUnreachableScenes_reachability cycGraph).2 "A" (by decide)⟩

/-- C9: the breadth-first traversal terminates on every scene graph — for
every graph and target the fuelled loop reaches a settled answer that no
additional fuel changes (this is termination of the `while` loop, cycles
included) — and on the concrete cyclic graph `start -> A -> B -> A` both
checks return without flagging anything, while a choice referencing a
nonexistent scene is skipped rather than faulting (it is traversed as
reachable, reported by `findBrokenLinks`, and bothers neither check). -/
theorem bfs_terminates_on_cycles :
    (∀ (scenes : Scenes) (target : String), ∃ (n₀ : Nat) (r : Bool),
      ∀ n, n₀ ≤ n → bfsAux scenes target n [] ["start"] = some r) ∧
    findUnreachableScenes cycGraph = [] ∧
    findBrokenLinks cycGraph = [] ∧
    isSceneReachable cycGraph "B" = true ∧
    findUnreachableScenes danglingGraph = [] ∧
    findBrokenLinks danglingGraph = [("start", 0)] ∧
    isSceneReachable danglingGraph "ghost" = true := by
  refine ⟨?term, by decide, by decide, by decide, by decide, by decide,
    by decide⟩
  intro scenes target
  obtain ⟨r, hr⟩ :=
    Option.isSome_iff_exists.mp (bfsAux_isSome_start scenes target)
  exact ⟨bfsFuel scenes, r, fun n hn => bfsAux_mono scenes target _ n _ _ hn hr⟩

/-- Witness for C9: the universally quantified stabilization statement,
instantiated at the cycle graph with the fuel bound it asserts. -/
theorem bfs_terminates_on_cycles_witness :
    ∃ (n₀ : Nat) (r : Bool), bfsAux cycGraph "A" n₀ [] ["start"] = some r := by
  obtain ⟨n₀, r, h⟩ := bfs_terminates_on_cycles.1 cycGraph "A"
  exact ⟨n₀, r, h n₀ le_rfl⟩

/-! ### Broken-link detection -/

theorem lookupKey_of_mem_nodup {α : Type} :
    ∀ {l : List (String × α)}, (l.map Prod.fst).Nodup →
      ∀ {k : String} {v : α}, (k, v) ∈ l → lookupKey l k = some v := by
  intro l
  induction l with
  | nil => intro _ k v hmem; cases hmem
  | cons p rest ih =>
    intro hnd k v hmem
    rw [List.map_cons, List.nodup_cons] at hnd
    rcases List.mem_cons.mp hmem with heq | hmem'
    · rw [← heq]
      simp [lookupKey]
    · have hk : k ∈ rest.map Prod.fst :=
        List.mem_map.mpr ⟨(k, v), hmem', rfl⟩
      have hne : (p.1 == k) = false := by
        rw [beq_eq_false_iff_ne]
        intro hkeq
        exact hnd.1 (hkeq ▸ hk)
      rw [lookupKey, hne]
      simp only [Bool.false_eq_true, if_false]
      exact ih hnd.2 hmem'

theorem pairwise_fst_lt_enumFrom {α : Type} :
    ∀ (l : List α) (n : Nat),
      List.Pairwise (fun a b => a.1 < b.1) (List.enumFrom n l) := by
  intro l
  induction l with
  | nil => intro n; simp
  | cons x xs ih =>
    intro n
    refine List.Pairwise.cons ?head (ih (n + 1))
    intro y hy
    have := (List.mem_enumFrom hy).1
    omega

theorem pairwise_fst_lt_enum {α : Type} (l : List α) :
    List.Pairwise (fun a b => a.1 < b.1) l.enum :=
  pairwise_fst_lt_enumFrom l 0

theorem keyIdx_get (scenes : Scenes) :
    (scenes.map Prod.fst).Nodup →
      ∀ i : Fin scenes.length, keyIdx scenes (scenes.get i).1 = i := by
  induction scenes with
  | nil => intro _ i; exact absurd i.2 (by simp)
  | cons p rest ih =>
    intro hnd i
    rw [List.map_cons, List.nodup_cons] at hnd
    rcases i with ⟨iv, hi⟩
    cases iv with
    | zero =>
      rcases p with ⟨k, v⟩
      simp [keyIdx]
    | succ j =>
      have hj : j < rest.length := by simpa using hi
      have hkey : (rest.get ⟨j, hj⟩).1 ∈ rest.map Prod.fst :=
        List.mem_map.mpr ⟨rest.get ⟨j, hj⟩, List.get_mem _ _ _, rfl⟩
      have hne : (p.1 == (rest.get ⟨j, hj⟩).1) = false := by
        rw [beq_eq_false_iff_ne]
        intro hkeq
        exact hnd.1 (hkeq ▸ hkey)
      rcases p with ⟨k, v⟩
      have hget : ((k, v) :: rest).get ⟨j + 1, hi⟩ = rest.get ⟨j, hj⟩ := rfl
      rw [hget, keyIdx, hne]
      simp only [Bool.false_eq_true, if_false]
      rw [ih hnd.2 ⟨j, hj⟩]

theorem pairwise_keyIdx_lt (scenes : Scenes)
    (hnd : (scenes.map Prod.fst).Nodup) :
    List.Pairwise (fun p q : String × Scene =>
      keyIdx scenes p.1 < keyIdx scenes q.1) scenes := by
  rw [List.pairwise_iff_get]
  intro i j hij
  rw [keyIdx_get scenes hnd i, keyIdx_get scenes hnd j]
  exact hij

theorem mem_findBrokenLinks_iff {scenes : Scenes}
    (hnd : (scenes.map Prod.fst).Nodup) (sid : String) (j : Nat) :
    (sid, j) ∈ findBrokenLinks scenes ↔
      ∃ sc, lookupKey scenes sid = some sc ∧
        ∃ c, sc.choices[j]? = some c ∧ lookupKey scenes c.nextScene = none := by
  unfold findBrokenLinks
  rw [List.mem_flatMap]
  constructor
  · rintro ⟨⟨k, sc⟩, hp, hmem⟩
    rcases List.mem_map.mp hmem with ⟨⟨i, c⟩, hic, heq⟩
    rcases List.mem_filter.mp hic with ⟨henum, hpred⟩
    obtain ⟨rfl, rfl⟩ : k = sid ∧ i = j := by
      simpa using heq
    refine ⟨sc, lookupKey_of_mem_nodup hnd hp, c, ?getc, ?none⟩
    case getc => exact List.mk_mem_enum_iff_getElem?.mp henum
    case none => simpa [Option.isNone_iff_eq_none] using hpred
  · rintro ⟨sc, hsc, c, hc, hnone⟩
    refine ⟨(sid, sc), lookupKey_mem hsc, ?_⟩
    apply List.mem_map.mpr
    refine ⟨(j, c),
      List.mem_filter.mpr ⟨List.mk_mem_enum_iff_getElem?.mpr hc, ?pred⟩, rfl⟩
    simp [hnone]

/-- C4: `(sceneId, choiceIndex)` is reported by `findBrokenLinks` iff the
scene exists, the index addresses one of its choices, and that choice's
`nextScene` keys no scene; and the output is ordered by scene insertion
order first and choice array order second. -/
theorem findBrokenLinks_correct (scenes : Scenes)
    (hnd : (scenes.map Prod.fst).Nodup) :
    (∀ (sid : String) (j : Nat),
      (sid, j) ∈ findBrokenLinks scenes ↔
        ∃ sc, lookupKey scenes sid = some sc ∧
          ∃ c, sc.choices[j]? = some c ∧
            lookupKey scenes c.nextScene = none) ∧
    List.Pairwise (fun a b : String × Nat =>
      keyIdx scenes a.1 < keyIdx scenes b.1 ∨ (a.1 = b.1 ∧ a.2 < b.2))
      (findBrokenLinks scenes) := by
  refine ⟨fun sid j => mem_findBrokenLinks_iff hnd sid j, ?ord⟩
  unfold findBrokenLinks
  have hdef : (scenes.flatMap (fun p =>
      (p.2.choices.enum.filter
        (fun ic => (lookupKey scenes ic.2.nextScene).isNone)).map
          (fun ic => (p.1, ic.1)))) =
      ((scenes.map (fun p =>
        (p.2.choices.enum.filter
          (fun ic => (lookupKey scenes ic.2.nextScene).isNone)).map
            (fun ic => (p.1, ic.1)))).flatten) := rfl
  rw [hdef, List.pairwise_flatten]
  constructor
  · intro l hl
    rcases List.mem_map.mp hl with ⟨p, hp, rfl⟩
    rw [List.pairwise_map]
    refine ((pairwise_fst_lt_enum p.2.choices).filter _).imp ?inner
    intro a b hab
    exact Or.inr ⟨rfl, hab⟩
  · rw [List.pairwise_map]
    refine (pairwise_keyIdx_lt scenes hnd).imp ?cross
    intro p q hpq x hx y hy
    rcases List.mem_map.mp hx with ⟨ic, _, rfl⟩
    rcases List.mem_map.mp hy with ⟨ic', _, rfl⟩
    exact Or.inl hpq

/-- Witness for C4 at the dangling graph: its single broken choice is
reported exactly as the characterization demands. -/
theorem findBrokenLinks_correct_witness :
    ("start", 0) ∈ findBrokenLinks danglingGraph ↔
      ∃ sc, lookupKey danglingGraph "start" = some sc ∧
        ∃ c, sc.choices[0]? = some c ∧
          lookupKey danglingGraph c.nextScene = none :=
  (findBrokenLinks_correct danglingGraph (by decide)).1 "start" 0

/-! ### Snapshot retention -/

theorem insertDesc_perm (s : Snapshot) :
    ∀ l : List Snapshot, (insertDesc s l).Perm (s :: l) := by
  intro l
  induction l with
  | nil => simp [insertDesc]
  | cons t ts ih =>
    rw [insertDesc]
    by_cases hc : t.timestamp ≤ s.timestamp
    · simp [hc]
    · simp only [hc, if_false]
      exact (ih.cons t).trans (List.Perm.swap s t ts)

theorem sortDesc_perm : ∀ l : List Snapshot, (sortDesc l).Perm l := by
  intro l
  induction l with
  | nil => simp [sortDesc]
  | cons s ss ih =>
    rw [sortDesc]
    exact (insertDesc_perm s (sortDesc ss)).trans (ih.cons s)

theorem insertDesc_pairwise (s : Snapshot) :
    ∀ {l : List Snapshot},
      List.Pairwise (fun a b => b.timestamp ≤ a.timestamp) l →
      List.Pairwise (fun a b => b.timestamp ≤ a.timestamp) (insertDesc s l) := by
  intro l
  induction l with
  | nil => intro _; simp [insertDesc]
  | cons t ts ih =>
    intro hp
    rcases List.pairwise_cons.mp hp with ⟨hhead, htail⟩
    rw [insertDesc]
    by_cases hc : t.timestamp ≤ s.timestamp
    · simp only [hc, if_true]
      refine List.Pairwise.cons ?hd hp
      intro y hy
      rcases List.mem_cons.mp hy with rfl | hy'
      · exact hc
      · exact le_trans (hhead y hy') hc
    · simp only [hc, if_false]
      refine List.Pairwise.cons ?hd2 (ih htail)
      intro y hy
      rcases List.mem_cons.mp ((insertDesc_perm s ts).mem_iff.mp hy) with
        rfl | hy'
      · omega
      · exact hhead y hy'

theorem sortDesc_pairwise :
    ∀ l : List Snapshot,
      List.Pairwise (fun a b => b.timestamp ≤ a.timestamp) (sortDesc l) := by
  intro l
  induction l with
  | nil => simp [sortDesc]
  | cons s ss ih => exact insertDesc_pairwise s ih

/-- In a strictly newest-first list, an element sits among the first `k`
entries iff fewer than `k` entries are strictly newer than it. -/
theorem mem_take_iff_newer_count_lt :
    ∀ {l : List Snapshot},
      List.Pairwise (fun a b => b.timestamp < a.timestamp) l →
      ∀ (k : Nat) (x : Snapshot),
        (x ∈ l.take k ↔ x ∈ l ∧
          (l.filter (fun y => decide (x.timestamp < y.timestamp))).length < k) := by
  intro l
  induction l with
  | nil => intro _ k x; simp
  | cons h t ih =>
    intro hp k x
    rcases List.pairwise_cons.mp hp with ⟨hhead, htail⟩
    cases k with
    | zero => simp
    | succ k =>
      rw [List.take_succ_cons]
      by_cases hx : x = h
      · subst hx
        have hfe : (x :: t).filter
            (fun y => decide (x.timestamp < y.timestamp)) = [] := by
          rw [List.filter_eq_nil_iff]
          intro a ha
          rcases List.mem_cons.mp ha with rfl | ha'
          · simp
          · have := hhead a ha'
            simp
            omega
        simp [hfe]
      · constructor
        · intro hmem
          have hxt : x ∈ List.take k t := by
            rcases List.mem_cons.mp hmem with h' | h'
            · exact absurd h' hx
            · exact h'
          have hx_t : x ∈ t := List.take_subset _ _ hxt
          have hcount := (ih htail k x).mp hxt
          refine ⟨List.mem_cons_of_mem _ hx_t, ?_⟩
          rw [List.filter_cons]
          have hlt : x.timestamp < h.timestamp := hhead x hx_t
          simp only [hlt, decide_True, if_true, List.length_cons]
          omega
        · rintro ⟨hmem, hcount⟩
          have hx_t : x ∈ t := by
            rcases List.mem_cons.mp hmem with h' | h'
            · exact absurd h' hx
            · exact h'
          have hlt : x.timestamp < h.timestamp := hhead x hx_t
          rw [List.filter_cons] at hcount
          simp only [hlt, decide_True, if_true, List.length_cons] at hcount
          exact List.mem_cons_of_mem _
            ((ih htail k x).mpr ⟨hx_t, by omega⟩)

theorem mem_cleanupSnapshots_iff {epId : String} {store : List Snapshot}
    {s : Snapshot} (hs : s ∈ store) :
    s ∈ cleanupSnapshots epId store ↔
      s.id ∉ ((if ((sortDesc (store.filter (fun t => t.episodeId == epId))).filter
            (fun t => snapType t == "auto-save")).length > 10
          then ((sortDesc (store.filter (fun t => t.episodeId == epId))).filter
            (fun t => snapType t == "auto-save")).drop 10
          else []).map Snapshot.id) := by
  unfold cleanupSnapshots
  rw [List.mem_filter]
  simp [hs]

/-- Under distinct snapshot ids, every `"manual-save"` snapshot survives the
retention cleanup. -/
theorem cleanup_keeps_manual (epId : String) (store : List Snapshot)
    (hids : (store.map Snapshot.id).Nodup) (s : Snapshot) (hs : s ∈ store)
    (hman : s.type = "manual-save") : s ∈ cleanupSnapshots epId store := by
  rw [mem_cleanupSnapshots_iff hs]
  intro hdel
  rcases List.mem_map.mp hdel with ⟨t, ht, htid⟩
  have htauto : t ∈ (sortDesc (store.filter (fun u => u.episodeId == epId))).filter
      (fun u => snapType u == "auto-save") := by
    by_cases hlen : ((sortDesc (store.filter (fun u => u.episodeId == epId))).filter
        (fun u => snapType u == "auto-save")).length > 10
    · rw [if_pos hlen] at ht
      exact List.drop_subset _ _ ht
    · rw [if_neg hlen] at ht
      cases ht
  have ht_store : t ∈ store :=
    List.mem_of_mem_filter
      ((sortDesc_perm _).mem_iff.mp (List.mem_of_mem_filter htauto))
  obtain rfl : t = s := List.inj_on_of_nodup_map hids ht_store hs htid
  have htype := (List.mem_filter.mp htauto).2
  rw [snapType, hman] at htype
  simp at htype

/-- Under distinct ids and distinct per-episode timestamps, an `"auto-save"`
snapshot of the episode survives the cleanup iff fewer than ten of the
episode's auto-saves in the store are strictly newer. -/
theorem cleanup_auto_iff (epId : String) (store : List Snapshot)
    (hids : (store.map Snapshot.id).Nodup)
    (htdist : ((store.filter (fun t => t.episodeId == epId)).map
      Snapshot.timestamp).Nodup)
    (s : Snapshot) (hs : s ∈ store) (hep : s.episodeId = epId)
    (hauto : s.type = "auto-save") :
    (s ∈ cleanupSnapshots epId store ↔
      (store.filter (fun t => t.episodeId == epId &&
        snapType t == "auto-save" &&
        decide (s.timestamp < t.timestamp))).length < 10) := by
  set epP : Snapshot → Bool := fun t => t.episodeId == epId with hepP
  set autoP : Snapshot → Bool := fun t => snapType t == "auto-save" with hautoP
  set newer : Snapshot → Bool :=
    fun t => decide (s.timestamp < t.timestamp) with hnewer
  set snaps := store.filter epP with hsnapsDef
  set sorted := sortDesc snaps with hsortedDef
  set autos := sorted.filter autoP with hautosDef
  have hsnap : s ∈ snaps := by
    rw [hsnapsDef]
    exact List.mem_filter.mpr ⟨hs, by simp [hepP, hep]⟩
  have hsorted : s ∈ sorted := (sortDesc_perm snaps).mem_iff.mpr hsnap
  have hautos : s ∈ autos := by
    rw [hautosDef]
    refine List.mem_filter.mpr ⟨hsorted, ?_⟩
    simp [hautoP, snapType, hauto]
  have hstrict : List.Pairwise
      (fun a b => b.timestamp < a.timestamp) autos := by
    have hle : List.Pairwise (fun a b => b.timestamp ≤ a.timestamp) autos :=
      (sortDesc_pairwise snaps).filter autoP
    have hndts_sorted : (sorted.map Snapshot.timestamp).Nodup :=
      ((sortDesc_perm snaps).map Snapshot.timestamp).nodup_iff.mpr htdist
    have hndts_autos : (autos.map Snapshot.timestamp).Nodup :=
      List.Nodup.sublist
        (List.Sublist.map _ (List.filter_sublist sorted)) hndts_sorted
    have hne : List.Pairwise
        (fun a b : Snapshot => a.timestamp ≠ b.timestamp) autos :=
      List.pairwise_map.mp hndts_autos
    exact (hle.and hne).imp (fun h => lt_of_le_of_ne h.1 h.2.symm)
  have ccount : (autos.filter newer).length =
      (store.filter (fun t => epP t && autoP t && newer t)).length := by
    have h1 : (autos.filter newer).Perm ((snaps.filter autoP).filter newer) :=
      List.Perm.filter newer (List.Perm.filter autoP (sortDesc_perm snaps))
    rw [h1.length_eq, List.filter_filter, hsnapsDef, List.filter_filter]
    congr 1
    apply List.filter_congr
    intro x _
    cases hE : epP x <;> cases hA : autoP x <;> cases hN : newer x <;>
      simp [hE, hA, hN]
  have hNodupStore : store.Nodup := List.Nodup.of_map _ hids
  have hNodupAutos : autos.Nodup := by
    have h1 : snaps.Nodup := List.Nodup.sublist (List.filter_sublist _) hNodupStore
    have h2 : sorted.Nodup := ((sortDesc_perm snaps).nodup_iff).mpr h1
    exact List.Nodup.sublist (List.filter_sublist _) h2
  rw [mem_cleanupSnapshots_iff hs, ← ccount]
  by_cases hlen : autos.length > 10
  · rw [if_pos (show ((sortDesc (store.filter
        (fun t => t.episodeId == epId))).filter
          (fun t => snapType t == "auto-save")).length > 10 from hlen)]
    show s.id ∉ (autos.drop 10).map Snapshot.id ↔
      (autos.filter newer).length < 10
    have hidToMem : s.id ∈ (autos.drop 10).map Snapshot.id ↔
        s ∈ autos.drop 10 := by
      constructor
      · intro hmem
        rcases List.mem_map.mp hmem with ⟨t, ht, htid⟩
        have ht_store : t ∈ store :=
          List.mem_of_mem_filter
            ((sortDesc_perm _).mem_iff.mp
              (List.mem_of_mem_filter (List.drop_subset _ _ ht)))
        obtain rfl : t = s := List.inj_on_of_nodup_map hids ht_store hs htid
        exact ht
      · intro hmem
        exact List.mem_map_of_mem _ hmem
    rw [hidToMem]
    have hdisj : (autos.take 10).Disjoint (autos.drop 10) := by
      have := List.take_append_drop 10 autos
      rw [← this] at hNodupAutos
      exact (List.nodup_append.mp hNodupAutos).2.2
    have hsplitMem : s ∈ autos.take 10 ∨ s ∈ autos.drop 10 := by
      rw [← List.mem_append, List.take_append_drop]
      exact hautos
    have htake := mem_take_iff_newer_count_lt hstrict 10 s
    constructor
    · intro hnotdrop
      have hintake : s ∈ autos.take 10 := hsplitMem.resolve_right hnotdrop
      exact (htake.mp hintake).2
    · intro hcount
      have hintake : s ∈ autos.take 10 := htake.mpr ⟨hautos, hcount⟩
      exact fun hdrop => hdisj hintake hdrop
  · rw [if_neg (show ¬ ((sortDesc (store.filter
        (fun t => t.episodeId == epId))).filter
          (fun t => snapType t == "auto-save")).length > 10 from hlen)]
    simp only [List.map_nil, List.not_mem_nil, not_false_iff, true_iff]
    have hlt : (autos.filter newer).length < autos.length := by
      apply List.length_filter_lt_length_iff_exists.mpr
      exact ⟨s, hautos, by simp [hnewer]⟩
    omega

/-- C5: after an auto-save snapshot insertion the retention cleanup keeps
every `"manual-save"` snapshot unconditionally, keeps an `"auto-save"`
snapshot of the episode exactly when fewer than ten of that episode's
auto-saves are strictly more recent (so at most the ten most recent remain,
older ones being deleted); concretely, a store of fifteen auto-saves and
three manual saves, after one further auto-saving `saveEpisode`, holds
exactly the ten newest auto-saves plus the three manual saves — thirteen
snapshots. -/
theorem snapshot_retention_policy (epId : String) (store : List Snapshot)
    (hids : (store.map Snapshot.id).Nodup)
    (htdist : ((store.filter (fun t => t.episodeId == epId)).map
      Snapshot.timestamp).Nodup) :
    (∀ s ∈ store, s.type = "manual-save" → s ∈ cleanupSnapshots epId store) ∧
    (∀ s ∈ store, s.episodeId = epId → s.type = "auto-save" →
      (s ∈ cleanupSnapshots epId store ↔
        (store.filter (fun t => t.episodeId == epId &&
          snapType t == "auto-save" &&
          decide (s.timestamp < t.timestamp))).length < 10)) ∧
    ((saveEpisode ⟨[], [], retentionStore⟩ retentionEpisode "t16" 16
        false false).2.snapshots.map Snapshot.id =
      ["a7", "a8", "a9", "a10", "a11", "a12", "a13", "a14", "a15",
       "m1", "m2", "m3", "ep1-16"] ∧
     (saveEpisode ⟨[], [], retentionStore⟩ retentionEpisode "t16" 16
        false false).2.snapshots.length = 13) := by
  refine ⟨?manual, ?auto, by decide, by decide⟩
  · intro s hs hman
    exact cleanup_keeps_manual epId store hids s hs hman
  · intro s hs hep hauto
    exact cleanup_auto_iff epId store hids htdist s hs hep hauto

/-- Witness for C5: the auto-save characterization applied to the snapshot
`a12` in the concrete fifteen-auto-save store. -/
theorem snapshot_retention_policy_witness :
    autoSnap 12 ∈ cleanupSnapshots "ep1" retentionStore ↔
      (retentionStore.filter (fun t => t.episodeId == "ep1" &&
        snapType t == "auto-save" &&
        decide ((autoSnap 12).timestamp < t.timestamp))).length < 10 :=
  (snapshot_retention_policy "ep1" retentionStore (by decide)
    (by decide)).2.1 (autoSnap 12) (by decide) (by decide) (by decide)

/-! ### Deletion: cascade and frame conditions -/

theorem mem_upsertRec_self (r : Jx) :
    ∀ store : List Jx, r ∈ upsertRec store r := by
  intro store
  induction store with
  | nil => simp [upsertRec]
  | cons x xs ih =>
    rw [upsertRec]
    by_cases hk : recKey x == recKey r
    · simp [hk]
    · simp only [hk, Bool.false_eq_true, if_false]
      exact List.mem_cons_of_mem _ ih

/-- C8: `deleteEpisode(id)` succeeds, leaves zero snapshots carrying that
`episodeId`, keeps every other snapshot and every campaign, and removes
exactly the episode record with that key; `deleteCampaign(id)` succeeds and
touches only the campaign with that key. -/
theorem delete_cascade_and_frame (db : DB) (id : String) (hid : id ≠ "") :
    ((deleteEpisode db id).1 = .ok () ∧
     (deleteEpisode db id).2.snapshots.filter
       (fun s => s.episodeId == id) = [] ∧
     (∀ s ∈ db.snapshots, s.episodeId ≠ id →
       s ∈ (deleteEpisode db id).2.snapshots) ∧
     (deleteEpisode db id).2.campaigns = db.campaigns ∧
     (∀ e ∈ (deleteEpisode db id).2.episodes, recKey e ≠ id) ∧
     (∀ e ∈ db.episodes, recKey e ≠ id →
       e ∈ (deleteEpisode db id).2.episodes)) ∧
    ((deleteCampaign db id).1 = .ok () ∧
     (deleteCampaign db id).2.episodes = db.episodes ∧
     (deleteCampaign db id).2.snapshots = db.snapshots ∧
     (∀ c ∈ (deleteCampaign db id).2.campaigns, recKey c ≠ id) ∧
     (∀ c ∈ db.campaigns, recKey c ≠ id →
       c ∈ (deleteCampaign db id).2.campaigns)) := by
  have hide : (id == "") = false := beq_eq_false_iff_ne.mpr hid
  have hDE : deleteEpisode db id = (.ok (),
      { db with
          episodes := deleteRec db.episodes id
          snapshots := db.snapshots.filter (fun s => s.episodeId != id) }) := by
    unfold deleteEpisode
    rw [hide]
    simp
  have hDC : deleteCampaign db id = (.ok (),
      { db with campaigns := deleteRec db.campaigns id }) := by
    unfold deleteCampaign
    rw [hide]
    simp
  rw [hDE, hDC]
  refine ⟨⟨rfl, ?zero, ?others, rfl, ?gone, ?kept⟩,
    rfl, rfl, rfl, ?gone2, ?kept2⟩
  · rw [List.filter_filter]
    apply List.filter_eq_nil_iff.mpr
    intro s _
    simp
  · intro s hs hne
    exact List.mem_filter.mpr ⟨hs, by simpa using hne⟩
  · intro e he
    unfold deleteRec at he
    have h2 := (List.mem_filter.mp he).2
    simpa using h2
  · intro e he hne
    unfold deleteRec
    exact List.mem_filter.mpr ⟨he, by simpa using hne⟩
  · intro c hc
    unfold deleteRec at hc
    have := (List.mem_filter.mp hc).2
    simpa using this
  · intro c hc hne
    unfold deleteRec
    exact List.mem_filter.mpr ⟨hc, by simpa using hne⟩

/-- Witness for C8 at a concrete store with two episodes, their snapshots,
and a campaign. -/
theorem delete_cascade_and_frame_witness :
    ((deleteEpisode ⟨[tinyEpisode], [], [autoSnap 1, manualSnap 1]⟩
        "e1").1 = .ok () ∧
     (deleteEpisode ⟨[tinyEpisode], [], [autoSnap 1, manualSnap 1]⟩
        "e1").2.snapshots.filter (fun s => s.episodeId == "e1") = [] ∧
     (∀ s ∈ ([autoSnap 1, manualSnap 1] : List Snapshot),
        s.episodeId ≠ "e1" →
       s ∈ (deleteEpisode ⟨[tinyEpisode], [], [autoSnap 1, manualSnap 1]⟩
         "e1").2.snapshots) ∧
     (deleteEpisode ⟨[tinyEpisode], [], [autoSnap 1, manualSnap 1]⟩
        "e1").2.campaigns = [] ∧
     (∀ e ∈ (deleteEpisode ⟨[tinyEpisode], [], [autoSnap 1, manualSnap 1]⟩
        "e1").2.episodes, recKey e ≠ "e1") ∧
     (∀ e ∈ ([tinyEpisode] : List Jx), recKey e ≠ "e1" →
       e ∈ (deleteEpisode ⟨[tinyEpisode], [], [autoSnap 1, manualSnap 1]⟩
         "e1").2.episodes)) ∧
    ((deleteCampaign ⟨[tinyEpisode], [], [autoSnap 1, manualSnap 1]⟩
        "e1").1 = .ok () ∧
     (deleteCampaign ⟨[tinyEpisode], [], [autoSnap 1, manualSnap 1]⟩
        "e1").2.episodes = [tinyEpisode] ∧
     (deleteCampaign ⟨[tinyEpisode], [], [autoSnap 1, manualSnap 1]⟩
        "e1").2.snapshots = [autoSnap 1, manualSnap 1] ∧
     (∀ c ∈ (deleteCampaign ⟨[tinyEpisode], [], [autoSnap 1, manualSnap 1]⟩
        "e1").2.campaigns, recKey c ≠ "e1") ∧
     (∀ c ∈ ([] : List Jx), recKey c ≠ "e1" →
       c ∈ (deleteCampaign ⟨[tinyEpisode], [], [autoSnap 1, manualSnap 1]⟩
         "e1").2.campaigns)) :=
  delete_cascade_and_frame ⟨[tinyEpisode], [], [autoSnap 1, manualSnap 1]⟩
    "e1" (by decide)

/-! ### Empty-identifier guards -/

/-- C10: every persistence operation called with an empty or missing
identifier rejects with an explicit error and leaves the store untouched,
before any storage access. -/
theorem empty_id_guards :
    (∀ (db : DB) (episode : Jx) (nowIso : String) (nowMs : Nat)
        (f1 f2 : Bool),
      (jsFalsy episode || jsFalsy (episode.get "id")) = true →
      saveEpisode db episode nowIso nowMs f1 f2 =
        (.error "Invalid episode data: Missing ID", db)) ∧
    (∀ db : DB, getEpisode db "" = .error "Episode ID is required") ∧
    (∀ db : DB, deleteEpisode db "" =
      (.error "Episode ID is required", db)) ∧
    (∀ (db : DB) (nowMs : Nat), createManualSnapshot db "" nowMs =
      (.error "Episode ID is required", db)) ∧
    (∀ (db : DB) (nowIso : String), restoreEpisodeFromSnapshot db "" nowIso =
      (.error "Snapshot ID is required", db)) := by
  refine ⟨?save, ?get, ?del, ?manual, ?restore⟩
  · intro db e iso ms f1 f2 h
    unfold saveEpisode
    rw [h]
    simp
  · intro db
    rfl
  · intro db
    rfl
  · intro db ms
    rfl
  · intro db iso
    rfl

/-- Witness for C10 at concrete empty inputs. -/
theorem empty_id_guards_witness :
    saveEpisode emptyDB .null "t" 0 false false =
      (.error "Invalid episode data: Missing ID", emptyDB) ∧
    getEpisode emptyDB "" = .error "Episode ID is required" ∧
    deleteEpisode emptyDB "" = (.error "Episode ID is required", emptyDB) ∧
    createManualSnapshot emptyDB "" 0 =
      (.error "Episode ID is required", emptyDB) ∧
    restoreEpisodeFromSnapshot emptyDB "" "t" =
      (.error "Snapshot ID is required", emptyDB) :=
  ⟨empty_id_guards.1 emptyDB .null "t" 0 false false (by decide),
   empty_id_guards.2.1 emptyDB,
   empty_id_guards.2.2.1 emptyDB,
   empty_id_guards.2.2.2.1 emptyDB 0,
   empty_id_guards.2.2.2.2 emptyDB "t"⟩

/-! ### Unknown identifiers -/

/-- C6 counterexample: `deleteEpisode` and `deleteCampaign` called with an
id unknown to the store resolve successfully — no not-found condition is
raised (the underlying keyed delete is a no-op success). -/
theorem delete_unknown_id_counterexample :
    (deleteEpisode oneEpisodeDB "ghost").1 = .ok () ∧
    (deleteCampaign oneEpisodeDB "ghost").1 = .ok () :=
  ⟨rfl, rfl⟩

/-- C6 (amended): unknown nonempty ids make `getEpisode`/`getCampaign`
return a null result and `restoreEpisodeFromSnapshot` raise its explicit
not-found error, while `deleteEpisode` and `deleteCampaign` succeed
silently. -/
theorem unknown_id_behavior :
    (∀ (db : DB) (id : String), id ≠ "" → getRec db.episodes id = none →
      getEpisode db id = .ok none) ∧
    (∀ (db : DB) (id : String), id ≠ "" → getRec db.campaigns id = none →
      getCampaign db id = .ok none) ∧
    (∀ (db : DB) (id : String), id ≠ "" →
      (deleteEpisode db id).1 = .ok ()) ∧
    (∀ (db : DB) (id : String), id ≠ "" →
      (deleteCampaign db id).1 = .ok ()) ∧
    (∀ (db : DB) (id nowIso : String), id ≠ "" →
      db.snapshots.find? (fun s => s.id == id) = none →
      restoreEpisodeFromSnapshot db id nowIso =
        (.error "Snapshot not found", db)) := by
  refine ⟨?get, ?getc, ?del, ?delc, ?restore⟩
  · intro db id hid hrec
    unfold getEpisode
    rw [beq_eq_false_iff_ne.mpr hid, hrec]
    simp
  · intro db id hid hrec
    unfold getCampaign
    rw [beq_eq_false_iff_ne.mpr hid, hrec]
    simp
  · intro db id hid
    unfold deleteEpisode
    rw [beq_eq_false_iff_ne.mpr hid]
    simp
  · intro db id hid
    unfold deleteCampaign
    rw [beq_eq_false_iff_ne.mpr hid]
    simp
  · intro db id iso hid hfind
    unfold restoreEpisodeFromSnapshot
    rw [beq_eq_false_iff_ne.mpr hid, hfind]
    simp

/-- Witness for C6 (amended) at a concrete store and the unknown id
`ghost`. -/
theorem unknown_id_behavior_witness :
    getEpisode oneEpisodeDB "ghost" = .ok none ∧
    getCampaign oneEpisodeDB "ghost" = .ok none ∧
    (deleteEpisode oneEpisodeDB "ghost").1 = .ok () ∧
    (deleteCampaign oneEpisodeDB "ghost").1 = .ok () ∧
    restoreEpisodeFromSnapshot oneEpisodeDB "ghost" "t" =
      (.error "Snapshot not found", oneEpisodeDB) :=
  ⟨unknown_id_behavior.1 oneEpisodeDB "ghost" (by decide) rfl,
   unknown_id_behavior.2.1 oneEpisodeDB "ghost" (by decide) rfl,
   unknown_id_behavior.2.2.1 oneEpisodeDB "ghost" (by decide),
   unknown_id_behavior.2.2.2.1 oneEpisodeDB "ghost" (by decide),
   unknown_id_behavior.2.2.2.2 oneEpisodeDB "ghost" "t" (by decide) rfl⟩

/-! ### Validation: warnings on save, first-violation refusal on import -/

/-- C1 counterexample: `badEpisode` has two structural defects (missing
title, missing `start` scene), yet `validateEpisode` reports only the first
one, and `saveEpisode` persists the record anyway instead of refusing. The
last conjunct shows the second defect is real: once a title is supplied, the
missing `start` scene is the violation reported. -/
theorem validation_counterexample :
    validateEpisode badEpisode = some "Episode title is required" ∧
    (saveEpisode emptyDB badEpisode "t1" 1 false false).1 = .ok "e1" ∧
    (saveEpisode emptyDB badEpisode "t1" 1 false false).2.episodes =
      [badEpisode.spreadSet "lastModified" (.str "t1")] ∧
    validateEpisode (badEpisode.spreadSet "title" (.str "X")) =
      some "Episode must have a start scene" :=
  ⟨rfl, rfl, rfl, rfl⟩

/-- C1 (amended): `saveEpisode` treats a validation failure as a console
warning and persists the episode anyway; `importEpisodeFromJSON` does refuse
to persist an invalid episode, but its failure carries only the first
violation `validateEpisode` throws, not an enumeration of all of them. -/
theorem validation_behavior :
    (∀ (db : DB) (e : Jx) (iso : String) (ms : Nat) (msg : String),
      jsFalsy e = false → jsFalsy (e.get "id") = false →
      validateEpisode e = some msg →
      (saveEpisode db e iso ms false false).1 =
        .ok (jsToKey (e.get "id")) ∧
      e.spreadSet "lastModified" (.str iso) ∈
        (saveEpisode db e iso ms false false).2.episodes) ∧
    (∀ (db : DB) (s iso : String) (ms : Nat) (f1 f2 : Bool) (v : Jx)
        (msg : String),
      jsonParse s = some v → validateEpisode v = some msg →
      importEpisodeFromJSON db s iso ms f1 f2 =
        (.error ("Failed to import episode: " ++ msg), db)) ∧
    validateEpisode badEpisode = some "Episode title is required" := by
  refine ⟨?save, ?imp, rfl⟩
  · intro db e iso ms msg h1 h2 _
    unfold saveEpisode
    rw [h1, h2]
    simp only [Bool.or_self, Bool.false_eq_true, if_false]
    exact ⟨trivial, mem_upsertRec_self _ _⟩
  · intro db s iso ms f1 f2 v msg hparse hval
    unfold importEpisodeFromJSON
    simp [hparse, hval]

/-- Witness for C1 (amended): the defective `badEpisode` is persisted by
`saveEpisode`, and importing a titleless record fails with exactly the first
violation message. -/
theorem validation_behavior_witness :
    ((saveEpisode emptyDB badEpisode "t1" 1 false false).1 = .ok "e1" ∧
     badEpisode.spreadSet "lastModified" (.str "t1") ∈
       (saveEpisode emptyDB badEpisode "t1" 1 false false).2.episodes) ∧
    importEpisodeFromJSON emptyDB "\x7b\"id\": \"e1\"\x7d" "t1" 1
        false false =
      (.error "Failed to import episode: Episode title is required",
        emptyDB) :=
  ⟨validation_behavior.1 emptyDB badEpisode "t1" 1
      "Episode title is required" (by decide) (by decide) (by decide),
   validation_behavior.2.1 emptyDB "\x7b\"id\": \"e1\"\x7d" "t1" 1
      false false (.obj (.cons "id" (.str "e1") .nil))
      "Episode title is required" rfl (by decide)⟩

/-! ### Save atomicity -/

/-- C2 counterexample: with a failure injected at the snapshot insert,
`saveEpisode` resolves with the episode id even though the aborted
transaction committed neither the episode upsert nor the snapshot — the
claimed disjunction (both committed with success, or neither with failure)
does not hold. -/
theorem atomic_save_counterexample :
    (saveEpisode emptyDB tinyEpisode "t1" 1 false true).1 = .ok "e1" ∧
    (saveEpisode emptyDB tinyEpisode "t1" 1 false true).2 = emptyDB ∧
    getRec (saveEpisode emptyDB tinyEpisode "t1" 1 false true).2.episodes
      "e1" = none :=
  ⟨rfl, rfl, rfl⟩

/-- C2 (amended): the two writes share one transaction and a failure at
either request commits nothing (the episode is never left upserted without
its snapshot); but only an episode-put failure makes `saveEpisode` fail —
a snapshot-insert failure still resolves with the episode id. The success
path commits the upsert and the snapshot insert followed by retention
cleanup. -/
theorem atomic_save_behavior :
    (∀ (db : DB) (e : Jx) (iso : String) (ms : Nat) (f2 : Bool),
      jsFalsy e = false → jsFalsy (e.get "id") = false →
      saveEpisode db e iso ms true f2 =
        (.error "Failed to save episode", db)) ∧
    (∀ (db : DB) (e : Jx) (iso : String) (ms : Nat),
      jsFalsy e = false → jsFalsy (e.get "id") = false →
      saveEpisode db e iso ms false true =
        (.ok (jsToKey (e.get "id")), db)) ∧
    (∀ (db : DB) (e : Jx) (iso : String) (ms : Nat),
      jsFalsy e = false → jsFalsy (e.get "id") = false →
      (saveEpisode db e iso ms false false).1 =
        .ok (jsToKey (e.get "id")) ∧
      e.spreadSet "lastModified" (.str iso) ∈
        (saveEpisode db e iso ms false false).2.episodes ∧
      (saveEpisode db e iso ms false false).2.snapshots =
        cleanupSnapshots (jsToKey (e.get "id"))
          (db.snapshots ++
            [{ id := jsToKey (e.get "id") ++ "-" ++ toString ms
               episodeId := jsToKey (e.get "id")
               data := jsonStringifyC (e.spreadSet "lastModified" (.str iso))
               timestamp := ms, type := "auto-save" }])) := by
  refine ⟨?put, ?snap, ?ok⟩
  · intro db e iso ms f2 h1 h2
    unfold saveEpisode
    rw [h1, h2]
    simp
  · intro db e iso ms h1 h2
    unfold saveEpisode
    rw [h1, h2]
    simp
  · intro db e iso ms h1 h2
    unfold saveEpisode
    rw [h1, h2]
    simp only [Bool.or_self, Bool.false_eq_true, if_false]
    exact ⟨trivial, mem_upsertRec_self _ _, trivial⟩

/-! ### JSON codec round trip -/

theorem skipWs_append_of_wsOnly {w : List Char} (hw : wsOnly w = true) :
    ∀ l : List Char, skipWs (w ++ l) = skipWs l := by
  induction w with
  | nil => intro l; rfl
  | cons c cs ih =>
    intro l
    rw [wsOnly, List.all_cons, Bool.and_eq_true] at hw
    rw [List.cons_append, skipWs, if_pos hw.1]
    exact ih hw.2 l

theorem skipWs_cons_of_not_ws {c : Char} (hc : isWs c = false)
    (l : List Char) : skipWs (c :: l) = c :: l := by
  rw [skipWs, hc]
  simp

theorem wsOnly_spaces (n : Nat) : wsOnly (spaces n) = true := by
  induction n with
  | zero => rfl
  | succ n ih =>
    rw [spaces, List.replicate_succ]
    simpa [wsOnly, isWs] using ih

theorem wsOnly_newline_spaces (n : Nat) :
    wsOnly ('\n' :: spaces n) = true := by
  simpa [wsOnly, isWs] using wsOnly_spaces n

theorem unhex_hexDigit {n : Nat} (hn : n < 16) :
    unhex (hexDigit n) = some n := by
  interval_cases n <;> decide

theorem Char_ofNat_toNat (c : Char) : Char.ofNat c.toNat = c :=
  Char.ofNat_toNat c

/-- The string-body parser inverts the serializer escaping: after the
escaped characters and the closing quote it returns exactly the original
characters. -/
theorem parseStrBody_escChars :
    ∀ (l : List Char) (m : Nat) (rest : List Char), l.length + 1 ≤ m →
      parseStrBody m (escChars l ++ '"' :: rest) = some (l, rest) := by
  intro l
  induction l with
  | nil =>
    intro m rest hm
    match m, hm with
    | m + 1, _ =>
      rw [escChars, List.flatMap_nil, List.nil_append]
      simp [parseStrBody]
  | cons c cs ih =>
    intro m rest hm
    match m, hm with
    | m + 1, hm =>
      have hm' : cs.length + 1 ≤ m := by
        simpa [Nat.succ_le_succ_iff] using hm
      have hih := ih m rest hm'
      rw [escChars, List.flatMap_cons, ← escChars, List.append_assoc]
      by_cases h1 : c = '"'
      · subst h1
        simp [escChar, parseStrBody, hih]
      by_cases h2 : c = '\\'
      · subst h2
        simp [escChar, parseStrBody, hih]
      by_cases h3 : c = '\x08'
      · subst h3
        simp [escChar, parseStrBody, hih]
      by_cases h4 : c = '\x09'
      · subst h4
        simp [escChar, parseStrBody, hih]
      by_cases h5 : c = '\x0a'
      · subst h5
        simp [escChar, parseStrBody, hih]
      by_cases h6 : c = '\x0c'
      · subst h6
        simp [escChar, parseStrBody, hih]
      by_cases h7 : c = '\x0d'
      · subst h7
        simp [escChar, parseStrBody, hih]
      have e1 : (c == '"') = false := beq_eq_false_iff_ne.mpr h1
      have e2 : (c == '\\') = false := beq_eq_false_iff_ne.mpr h2
      have e3 : (c == '\x08') = false := beq_eq_false_iff_ne.mpr h3
      have e4 : (c == '\x09') = false := beq_eq_false_iff_ne.mpr h4
      have e5 : (c == '\x0a') = false := beq_eq_false_iff_ne.mpr h5
      have e6 : (c == '\x0c') = false := beq_eq_false_iff_ne.mpr h6
      have e7 : (c == '\x0d') = false := beq_eq_false_iff_ne.mpr h7
      by_cases h8 : c.toNat < 32
      · rw [escChar]
        rw [if_neg (by simp [e1]), if_neg (by simp [e2]),
          if_neg (by simp [e3]), if_neg (by simp [e4]),
          if_neg (by simp [e5]), if_neg (by simp [e6]),
          if_neg (by simp [e7]), if_pos h8]
        have hhi := unhex_hexDigit (show c.toNat / 16 < 16 by omega)
        have hlo := unhex_hexDigit (show c.toNat % 16 < 16 by omega)
        have h0 : unhex '0' = some 0 := by decide
        simp [parseStrBody, h0, hhi, hlo, hih]
        have hv : c.toNat / 16 * 16 + c.toNat % 16 = c.toNat := by
          omega
        rw [hv, Char_ofNat_toNat]
      · rw [escChar]
        rw [if_neg (by simp [e1]), if_neg (by simp [e2]),
          if_neg (by simp [e3]), if_neg (by simp [e4]),
          if_neg (by simp [e5]), if_neg (by simp [e6]),
          if_neg (by simp [e7]), if_neg h8]
        rw [List.singleton_append]
        simp [parseStrBody, e1, e2, hih]

theorem jsize_pos (v : Jx) : 1 ≤ jsize v := by
  cases v <;> simp [jsize] <;> omega

theorem jsizeL_pos (xs : JxList) : 1 ≤ jsizeL xs := by
  cases xs <;> simp [jsizeL] <;> omega

theorem jsizeF_pos (fs : JxFields) : 1 ≤ jsizeF fs := by
  cases fs <;> simp [jsizeF] <;> omega

/-- For a clean (`undefined`-free) field value, the serialized object items
of a cons are a fragment followed by the items of the tail. -/
theorem jxObjItems_cons {v : Jx} (hv : cleanVal v = true) (j : Nat)
    (k : String) (fs : JxFields) :
    jxObjItems j (.cons k v fs) =
      (spaces j ++ ('"' :: (escChars k.data ++ '"' :: ':' :: ' ' ::
        jxToChars j v))) :: jxObjItems j fs := by
  cases v with
  | undef => simp [cleanVal] at hv
  | num nn => simp [cleanVal] at hv
  | null => rfl
  | bool b => rfl
  | str s => rfl
  | arr xs => rfl
  | obj fs2 => rfl

/-- The first serialized character of a clean value is never whitespace nor
a closing delimiter. -/
theorem jxToChars_head (v : Jx) (i : Nat) (hc : cleanVal v = true) :
    ∃ c cs, jxToChars i v = c :: cs ∧ isWs c = false ∧
      (c == ']') = false ∧ (c == rbrace) = false := by
  cases v with
  | null => exact ⟨'n', _, rfl, by decide, by decide, by decide⟩
  | undef => simp [cleanVal] at hc
  | bool b =>
    cases b
    · exact ⟨'f', _, rfl, by decide, by decide, by decide⟩
    · exact ⟨'t', _, rfl, by decide, by decide, by decide⟩
  | num nn => simp [cleanVal] at hc
  | str s => exact ⟨'"', _, rfl, by decide, by decide, by decide⟩
  | arr xs =>
    cases xs
    · exact ⟨'[', _, rfl, by decide, by decide, by decide⟩
    · exact ⟨'[', _, rfl, by decide, by decide, by decide⟩
  | obj fs =>
    cases hj : jxObjItems (i + 2) fs with
    | nil =>
      refine ⟨lbrace, [rbrace], ?_, by decide, by decide, by decide⟩
      simp [jxToChars, hj]
    | cons f fs' =>
      refine ⟨lbrace, '\n' :: (joinFrags (f :: fs') ++
        '\n' :: (spaces i ++ [rbrace])), ?_, by decide, by decide, by decide⟩
      simp [jxToChars, hj]

/-- Leading whitespace and then a clean serialized value: the whitespace is
skipped and nothing more. -/
theorem skipWs_clean (v : Jx) (i : Nat) (hc : cleanVal v = true)
    (rest w : List Char) (hw : wsOnly w = true) :
    skipWs (w ++ (jxToChars i v ++ rest)) = jxToChars i v ++ rest := by
  rw [skipWs_append_of_wsOnly hw]
  obtain ⟨c, cs, hcs, hws, _, _⟩ := jxToChars_head v i hc
  rw [hcs, List.cons_append, skipWs_cons_of_not_ws hws, ← List.cons_append,
    ← hcs]

/-- Shape of a serialized non-empty array body: first element text followed
by its separator text. -/
theorem joinFrags_arrItems (i j : Nat) :
    ∀ (xs : JxList) (x : Jx) (rest : List Char),
      joinFrags (jxArrItems j (.cons x xs)) ++
        ('\n' :: (spaces i ++ (']' :: rest))) =
      spaces j ++ (jxToChars j x ++ arrSep i j xs rest)
  | .nil, x, rest => by
    simp [jxArrItems, joinFrags, arrSep, List.append_assoc]
  | .cons y ys, x, rest => by
    have h1 : jxArrItems j (JxList.cons x (JxList.cons y ys)) =
        (spaces j ++ jxToChars j x) :: jxArrItems j (JxList.cons y ys) := rfl
    obtain ⟨f, fs, hf⟩ : ∃ f fs, jxArrItems j (JxList.cons y ys) = f :: fs :=
      ⟨_, _, rfl⟩
    rw [h1, hf, joinFrags, ← hf, arrSep]
    · simp only [List.append_assoc, List.cons_append]
      rw [joinFrags_arrItems i j ys y rest]
    · simp

/-- Shape of a serialized non-empty object body: first field text followed
by its separator text. -/
theorem joinFrags_objItems (i j : Nat) :
    ∀ (fs : JxFields) (k : String) (v : Jx) (rest : List Char),
      cleanVal v = true → cleanFields fs = true →
      joinFrags (jxObjItems j (.cons k v fs)) ++
        ('\n' :: (spaces i ++ (rbrace :: rest))) =
      spaces j ++ ('"' :: (escChars k.data ++ '"' :: ':' :: ' ' ::
        (jxToChars j v ++ objSep i j fs rest)))
  | .nil, k, v, rest, hv, _ => by
    rw [jxObjItems_cons hv]
    simp [jxObjItems, joinFrags, objSep, List.append_assoc]
  | .cons k' v' fs', k, v, rest, hv, hfs => by
    rw [cleanFields, Bool.and_eq_true] at hfs
    rw [jxObjItems_cons hv, jxObjItems_cons hfs.1, joinFrags,
      ← jxObjItems_cons hfs.1, objSep]
    · simp only [List.append_assoc, List.cons_append]
      rw [joinFrags_objItems i j fs' k' v' rest hfs.1 hfs.2]
    · simp

/-- Witness for C2 (amended) at the concrete one-field episode. -/
theorem atomic_save_behavior_witness :
    saveEpisode emptyDB tinyEpisode "t1" 1 true false =
      (.error "Failed to save episode", emptyDB) ∧
    saveEpisode emptyDB tinyEpisode "t1" 1 false true =
      (.ok "e1", emptyDB) ∧
    (saveEpisode emptyDB tinyEpisode "t1" 1 false false).1 = .ok "e1" :=
  ⟨atomic_save_behavior.1 emptyDB tinyEpisode "t1" 1 false
      (by decide) (by decide),
   atomic_save_behavior.2.1 emptyDB tinyEpisode "t1" 1
      (by decide) (by decide),
   (atomic_save_behavior.2.2 emptyDB tinyEpisode "t1" 1
      (by decide) (by decide)).1⟩

end Kaviron
namespace Kaviron
theorem jxToChars_obj_cons {v : Jx} (hv : cleanVal v = true) (i : Nat)
    (k : String) (fs : JxFields) :
    jxToChars i (.obj (.cons k v fs)) =
      lbrace :: '\n' :: (joinFrags (jxObjItems (i + 2) (.cons k v fs)) ++
        '\n' :: (spaces i ++ [rbrace])) := by
  cases v with
  | undef => simp [cleanVal] at hv
  | num nn => simp [cleanVal] at hv
  | null => rfl
  | bool b => rfl
  | str s => rfl
  | arr xs => rfl
  | obj fs2 => rfl

theorem parseVal_ws (n : Nat) (w l : List Char) (hw : wsOnly w = true) :
    parseVal (n + 1) (w ++ l) = parseVal (n + 1) l := by
  simp only [parseVal]
  rw [skipWs_append_of_wsOnly hw]

theorem parse_roundtrip :
    ∀ n : Nat,
      (∀ (v : Jx) (i : Nat) (w rest : List Char), wsOnly w = true →
        cleanVal v = true → jsize v ≤ n →
        parseVal n (w ++ (jxToChars i v ++ rest)) = some (v, rest)) ∧
      (∀ (x : Jx) (xs : JxList) (i j : Nat) (w rest : List Char),
        wsOnly w = true → cleanVal x = true → cleanList xs = true →
        1 + jsize x + jsizeL xs ≤ n →
        parseArrRest n (w ++ (jxToChars j x ++ arrSep i j xs rest)) =
          some (.cons x xs, rest)) ∧
      (∀ (k : String) (v : Jx) (fs : JxFields) (i j : Nat)
          (w rest : List Char),
        wsOnly w = true → cleanVal v = true → cleanFields fs = true →
        1 + k.data.length + jsize v + jsizeF fs ≤ n →
        parseObjRest n (w ++ ('"' :: (escChars k.data ++ '"' :: ':' :: ' ' ::
          (jxToChars j v ++ objSep i j fs rest)))) =
          some (.cons k v fs, rest)) := by
  intro n
  induction n with
  | zero =>
    refine ⟨?_, ?_, ?_⟩
    · intro v i w rest _ _ hn
      have := jsize_pos v
      omega
    · intro x xs i j w rest _ _ _ hn
      have := jsize_pos x
      have := jsizeL_pos xs
      omega
    · intro k v fs i j w rest _ _ _ hn
      have := jsize_pos v
      have := jsizeF_pos fs
      omega
  | succ n ih =>
    obtain ⟨ihv, iharr, ihobj⟩ := ih
    refine ⟨?_, ?_, ?_⟩
    · intro v i w rest hw hc hn
      cases v with
      | undef => simp [cleanVal] at hc
      | num nn => simp [cleanVal] at hc
      | null =>
        rw [parseVal_ws n w _ hw]
        simp [parseVal, skipWs, isWs]
      | bool b =>
        cases b
        · rw [parseVal_ws n w _ hw]
          simp [parseVal, skipWs, isWs]
        · rw [parseVal_ws n w _ hw]
          simp [parseVal, skipWs, isWs]
      | str s =>
        rw [parseVal_ws n w _ hw]
        rw [show jxToChars i (.str s) =
          '"' :: (escChars s.data ++ ['"']) from rfl]
        rw [List.cons_append, List.append_assoc, List.singleton_append]
        have hb := parseStrBody_escChars s.data (n + 1) rest (by
          have h2 : jsize (.str s) ≤ n + 1 := hn
          simpa [jsize] using h2)
        simp [parseVal, skipWs, isWs, hb]
      | arr xs =>
        cases xs with
        | nil =>
          rw [parseVal_ws n w _ hw]
          simp [parseVal, skipWs, isWs]
        | cons x xs' =>
          rw [cleanVal] at hc
          rw [show cleanList (.cons x xs') =
            (cleanVal x && cleanList xs') from rfl, Bool.and_eq_true] at hc
          rw [parseVal_ws n w _ hw]
          rw [show jxToChars i (.arr (.cons x xs')) = '[' :: '\n' ::
            (joinFrags (jxArrItems (i + 2) (.cons x xs')) ++
              '\n' :: (spaces i ++ [']'])) from rfl]
          rw [List.cons_append, List.cons_append, List.append_assoc,
            List.cons_append, List.append_assoc, List.singleton_append]
          rw [joinFrags_arrItems i (i + 2) xs' x rest]
          have hskip : skipWs (('\n' :: spaces (i + 2)) ++
              (jxToChars (i + 2) x ++ arrSep i (i + 2) xs' rest)) =
              jxToChars (i + 2) x ++ arrSep i (i + 2) xs' rest :=
            skipWs_clean x (i + 2) hc.1 _ _ (wsOnly_newline_spaces _)
          rw [List.cons_append] at hskip
          have harr := iharr x xs' i (i + 2) [] rest rfl hc.1 hc.2 (by
            have h2 : jsize (.arr (.cons x xs')) ≤ n + 1 := hn
            simp only [jsize, jsizeL] at h2
            omega)
          rw [List.nil_append] at harr
          obtain ⟨c, cs₂, hcs₂, hws₂, hnotbr, _⟩ :=
            jxToChars_head x (i + 2) hc.1
          simp only [parseVal]
          rw [skipWs_cons_of_not_ws (by decide)]
          simp only [show (('[' : Char) == 'n') = false by decide,
            show (('[' : Char) == 't') = false by decide,
            show (('[' : Char) == 'f') = false by decide,
            show (('[' : Char) == '"') = false by decide,
            show (('[' : Char) == '[') = true by decide,
            Bool.false_eq_true, if_false, if_true]
          rw [hskip, hcs₂, List.cons_append]
          split
          · rename_i r heq
            rw [List.cons.injEq] at heq
            exact absurd heq.1 (by simpa using hnotbr)
          · rw [← List.cons_append, ← hcs₂, harr]
            rfl
      | obj fs =>
        cases fs with
        | nil =>
          rw [parseVal_ws n w _ hw]
          rw [show jxToChars i (.obj .nil) = [lbrace, rbrace] from rfl]
          simp [parseVal, skipWs, isWs, lbrace, rbrace]
        | cons k v fs' =>
          rw [show cleanVal (.obj (.cons k v fs')) =
            (cleanVal v && cleanFields fs') from rfl, Bool.and_eq_true] at hc
          rw [parseVal_ws n w _ hw]
          rw [jxToChars_obj_cons hc.1]
          rw [List.cons_append, List.cons_append, List.append_assoc,
            List.cons_append, List.append_assoc, List.singleton_append]
          rw [joinFrags_objItems i (i + 2) fs' k v rest hc.1 hc.2]
          have hobj := ihobj k v fs' i (i + 2) [] rest rfl hc.1 hc.2 (by
            have h2 : jsize (.obj (.cons k v fs')) ≤ n + 1 := hn
            simp only [jsize, jsizeF] at h2
            omega)
          rw [List.nil_append] at hobj
          simp only [parseVal]
          rw [skipWs_cons_of_not_ws (by decide)]
          simp only [show ((lbrace : Char) == 'n') = false by decide,
            show ((lbrace : Char) == 't') = false by decide,
            show ((lbrace : Char) == 'f') = false by decide,
            show ((lbrace : Char) == '"') = false by decide,
            show ((lbrace : Char) == '[') = false by decide,
            show ((lbrace : Char) == lbrace) = true by decide,
            Bool.false_eq_true, if_false, if_true]
          rw [show '\n' :: (spaces (i + 2) ++ ('"' :: (escChars k.data ++
              '"' :: ':' :: ' ' :: (jxToChars (i + 2) v ++
                objSep i (i + 2) fs' rest)))) =
            ('\n' :: spaces (i + 2)) ++ ('"' :: (escChars k.data ++
              '"' :: ':' :: ' ' :: (jxToChars (i + 2) v ++
                objSep i (i + 2) fs' rest))) from rfl]
          rw [skipWs_append_of_wsOnly (wsOnly_newline_spaces _),
            skipWs_cons_of_not_ws (by decide)]
          dsimp only
          rw [show (('"' : Char) == rbrace) = false from by decide]
          simp only [Bool.false_eq_true, if_false]
          rw [hobj]
          rfl
    · intro x xs i j w rest hw hcx hcxs hn
      have hxpos := jsize_pos x
      have hlpos := jsizeL_pos xs
      simp only [parseArrRest]
      have hpv := ihv x j w (arrSep i j xs rest) hw hcx (by omega)
      rw [hpv]
      dsimp only
      cases xs with
      | nil =>
        rw [show arrSep i j .nil rest =
          ('\n' :: spaces i) ++ (']' :: rest) from rfl]
        rw [skipWs_append_of_wsOnly (wsOnly_newline_spaces _),
          skipWs_cons_of_not_ws (by decide)]
        rfl
      | cons y ys =>
        rw [show cleanList (.cons y ys) =
          (cleanVal y && cleanList ys) from rfl, Bool.and_eq_true] at hcxs
        rw [show arrSep i j (.cons y ys) rest = ',' :: ('\n' ::
          (spaces j ++ (jxToChars j y ++ arrSep i j ys rest))) from rfl]
        rw [skipWs_cons_of_not_ws (by decide)]
        have harr2 := iharr y ys i j ('\n' :: spaces j) rest
          (wsOnly_newline_spaces j) hcxs.1 hcxs.2 (by
            simp only [jsizeL] at hn
            omega)
        rw [show ('\n' :: spaces j) ++
          (jxToChars j y ++ arrSep i j ys rest) = '\n' ::
          (spaces j ++ (jxToChars j y ++ arrSep i j ys rest)) from rfl] at harr2
        show Option.map (fun r => (JxList.cons x r.1, r.2))
            (parseArrRest n ('\n' ::
              (spaces j ++ (jxToChars j y ++ arrSep i j ys rest)))) =
          some (JxList.cons x (JxList.cons y ys), rest)
        rw [harr2]
        rfl
    · intro k v fs i j w rest hw hcv hcfs hn
      have hvpos := jsize_pos v
      have hfpos := jsizeF_pos fs
      have hb := parseStrBody_escChars k.data (n + 1)
        (':' :: ' ' :: (jxToChars j v ++ objSep i j fs rest)) (by omega)
      have hpv := ihv v j [' '] (objSep i j fs rest) (by decide) hcv (by omega)
      rw [List.singleton_append] at hpv
      simp only [parseObjRest]
      rw [skipWs_append_of_wsOnly hw, skipWs_cons_of_not_ws (by decide)]
      show (match parseStrBody (n + 1) (escChars k.data ++ '\"' :: ':' :: ' ' ::
            (jxToChars j v ++ objSep i j fs rest)) with
        | none => none
        | some (k1, r1) =>
          match skipWs r1 with
          | ':' :: r2 =>
            match parseVal n r2 with
            | none => none
            | some (v1, r3) =>
              match skipWs r3 with
              | d :: r4 =>
                if d == rbrace then
                  some (JxFields.cons (String.mk k1) v1 JxFields.nil, r4)
                else if d == ',' then
                  (parseObjRest n r4).map (fun r =>
                    (JxFields.cons (String.mk k1) v1 r.1, r.2))
                else none
              | [] => none
          | _ => none) = some (JxFields.cons k v fs, rest)
      rw [hb]
      dsimp only
      rw [skipWs_cons_of_not_ws (by decide)]
      show (match parseVal n (' ' :: (jxToChars j v ++ objSep i j fs rest)) with
        | none => none
        | some (v1, r3) =>
          match skipWs r3 with
          | d :: r4 =>
            if d == rbrace then
              some (JxFields.cons (String.mk k.data) v1 JxFields.nil, r4)
            else if d == ',' then
              (parseObjRest n r4).map (fun r =>
                (JxFields.cons (String.mk k.data) v1 r.1, r.2))
            else none
          | [] => none) = some (JxFields.cons k v fs, rest)
      rw [hpv]
      dsimp only
      cases fs with
      | nil =>
        rw [show objSep i j JxFields.nil rest =
          ('\n' :: spaces i) ++ (rbrace :: rest) from rfl]
        rw [skipWs_append_of_wsOnly (wsOnly_newline_spaces _),
          skipWs_cons_of_not_ws (by decide)]
        dsimp only
        rw [show ((rbrace : Char) == rbrace) = true from by decide]
        simp only [if_true]
      | cons k2 v2 fs2 =>
        rw [show cleanFields (.cons k2 v2 fs2) =
          (cleanVal v2 && cleanFields fs2) from rfl, Bool.and_eq_true] at hcfs
        rw [show objSep i j (.cons k2 v2 fs2) rest = ',' :: ('\n' ::
          (spaces j ++ ('\"' :: (escChars k2.data ++ '\"' :: ':' :: ' ' ::
            (jxToChars j v2 ++ objSep i j fs2 rest))))) from rfl]
        rw [skipWs_cons_of_not_ws (by decide)]
        dsimp only
        rw [show ((',' : Char) == rbrace) = false from by decide]
        simp only [Bool.false_eq_true, if_false]
        rw [show ((',' : Char) == ',') = true from by decide]
        simp only [if_true]
        have hobj2 := ihobj k2 v2 fs2 i j ('\n' :: spaces j) rest
          (wsOnly_newline_spaces j) hcfs.1 hcfs.2 (by
            simp only [jsizeF] at hn
            omega)
        rw [List.cons_append] at hobj2
        rw [hobj2]
        rfl
end Kaviron
namespace Kaviron

/-- String `==` is symmetric in its falsehood. -/
theorem beq_str_symm_false {a b : String} (h : (a == b) = false) :
    (b == a) = false :=
  beq_eq_false_iff_ne.mpr (fun e => beq_eq_false_iff_ne.mp h e.symm)

/-- Looking up a key other than the removed one is unchanged. -/
theorem JxFields.get_removeField :
    ∀ (fs : JxFields) (k L : String), (k == L) = false →
      (fs.removeField L).get k = fs.get k
  | .nil, _, _, _ => rfl
  | .cons k2 v2 fs2, k, L, hne => by
    by_cases h2 : (k2 == L) = true
    · have hk2 : (k2 == k) = false := beq_eq_false_iff_ne.mpr (fun hkk =>
        beq_eq_false_iff_ne.mp hne (hkk ▸ (beq_iff_eq.mp h2)))
      simp [JxFields.removeField, JxFields.get, h2, hk2,
        JxFields.get_removeField fs2 k L hne]
    · have h2' : (k2 == L) = false := by simpa using h2
      simp [JxFields.removeField, JxFields.get, h2',
        JxFields.get_removeField fs2 k L hne]

/-- Rest-destructuring really removes the key. -/
theorem JxFields.hasKey_removeField :
    ∀ (fs : JxFields) (L : String), (fs.removeField L).hasKey L = false
  | .nil, _ => rfl
  | .cons k2 v2 fs2, L => by
    have ih := JxFields.hasKey_removeField fs2 L
    by_cases h2 : (k2 == L) = true
    · simpa [JxFields.removeField, h2] using ih
    · have h2' : (k2 == L) = false := by simpa using h2
      have hLk : (L == k2) = false := beq_str_symm_false h2'
      simp only [JxFields.removeField, h2', Bool.false_eq_true, if_false]
      simp only [JxFields.hasKey, JxFields.keys, List.contains_cons,
        Bool.or_eq_false_iff] at ih ⊢
      exact ⟨hLk, ih⟩

/-- Removing an absent key is the identity. -/
theorem JxFields.removeField_of_not_hasKey :
    ∀ (fs : JxFields) (L : String), fs.hasKey L = false →
      fs.removeField L = fs
  | .nil, _, _ => rfl
  | .cons k2 v2 fs2, L, h => by
    simp only [JxFields.hasKey, JxFields.keys, List.contains_cons,
      Bool.or_eq_false_iff] at h
    have hk2 : (k2 == L) = false := beq_str_symm_false h.1
    simp only [JxFields.removeField, hk2, Bool.false_eq_true, if_false]
    rw [JxFields.removeField_of_not_hasKey fs2 L h.2]

/-- Removing a key undoes a spread-set of that key. -/
theorem JxFields.spreadSet_removeField :
    ∀ (fs : JxFields) (L : String) (v : Jx),
      (fs.spreadSet L v).removeField L = fs.removeField L
  | .nil, L, v => by
    simp [JxFields.spreadSet, JxFields.removeField]
  | .cons k2 w fs2, L, v => by
    by_cases h2 : (k2 == L) = true
    · simp [JxFields.spreadSet, JxFields.removeField, h2]
    · have h2' : (k2 == L) = false := by simpa using h2
      simp [JxFields.spreadSet, JxFields.removeField, h2',
        JxFields.spreadSet_removeField fs2 L v]

/-- Removing a field preserves schema cleanliness. -/
theorem cleanFields_removeField :
    ∀ (fs : JxFields) (L : String), cleanFields fs = true →
      cleanFields (fs.removeField L) = true
  | .nil, _, _ => rfl
  | .cons k2 v2 fs2, L, h => by
    rw [show cleanFields (.cons k2 v2 fs2) =
      (cleanVal v2 && cleanFields fs2) from rfl, Bool.and_eq_true] at h
    by_cases h2 : (k2 == L) = true
    · simp only [JxFields.removeField, h2, if_true]
      exact cleanFields_removeField fs2 L h.2
    · have h2' : (k2 == L) = false := by simpa using h2
      simp only [JxFields.removeField, h2', Bool.false_eq_true, if_false]
      rw [show cleanFields (.cons k2 v2 (fs2.removeField L)) =
        (cleanVal v2 && cleanFields (fs2.removeField L)) from rfl]
      rw [h.1, cleanFields_removeField fs2 L h.2]
      rfl

/-- Looking up a key other than the spread-set one is unchanged. -/
theorem JxFields.get_spreadSet_ne :
    ∀ (fs : JxFields) (L : String) (v : Jx) (k : String), (k == L) = false →
      (fs.spreadSet L v).get k = fs.get k
  | .nil, L, v, k, h => by
    have hLk : (L == k) = false := beq_str_symm_false h
    simp [JxFields.spreadSet, JxFields.get, hLk]
  | .cons k2 w fs2, L, v, k, h => by
    by_cases h2 : (k2 == L) = true
    · have hk2 : (k2 == k) = false := beq_eq_false_iff_ne.mpr (fun hkk =>
        beq_eq_false_iff_ne.mp h (hkk ▸ (beq_iff_eq.mp h2)))
      simp [JxFields.spreadSet, JxFields.get, h2, hk2]
    · have h2' : (k2 == L) = false := by simpa using h2
      simp [JxFields.spreadSet, JxFields.get, h2',
        JxFields.get_spreadSet_ne fs2 L v k h]

/-- A keyed `put` makes the record retrievable under its key. -/
theorem getRec_upsertRec :
    ∀ (store : List Jx) (r : Jx),
      getRec (upsertRec store r) (recKey r) = some r
  | [], r => by simp [upsertRec, getRec, List.find?]
  | x :: xs, r => by
    by_cases hx : (recKey x == recKey r) = true
    · simp [upsertRec, hx, getRec, List.find?]
    · have hx' : (recKey x == recKey r) = false := by simpa using hx
      have ih := getRec_upsertRec xs r
      simp only [getRec] at ih
      simp [upsertRec, hx', getRec, List.find?, ih]

end Kaviron
namespace Kaviron

/-- Every character escapes to at least one character. -/
theorem escChar_len_pos (c : Char) : 1 ≤ (escChar c).length := by
  unfold escChar
  repeat' split
  all_goals simp

/-- Escaping never shortens a string. -/
theorem escChars_len (l : List Char) : l.length ≤ (escChars l).length := by
  induction l with
  | nil => simp [escChars]
  | cons c cs ih =>
    have := escChar_len_pos c
    simp only [escChars, List.flatMap_cons, List.length_append,
      List.length_cons]
    simp only [escChars] at ih
    omega

/-- The parser fuel measure is bounded by the serialized length: the value
bound, and the element/field bounds against the joined fragment lines. -/
theorem jsize_bounds : ∀ n : Nat,
    (∀ (v : Jx) (i : Nat), cleanVal v = true → jsize v ≤ n →
      jsize v ≤ (jxToChars i v).length) ∧
    (∀ (xs : JxList) (i : Nat), cleanList xs = true → jsizeL xs ≤ n →
      jsizeL xs ≤ (joinFrags (jxArrItems i xs)).length + 2) ∧
    (∀ (fs : JxFields) (i : Nat), cleanFields fs = true → jsizeF fs ≤ n →
      jsizeF fs ≤ (joinFrags (jxObjItems i fs)).length + 2) := by
  intro n
  induction n with
  | zero =>
    refine ⟨?_, ?_, ?_⟩
    · intro v i _ hn
      have := jsize_pos v
      omega
    · intro xs i _ hn
      have := jsizeL_pos xs
      omega
    · intro fs i _ hn
      have := jsizeF_pos fs
      omega
  | succ n ih =>
    obtain ⟨ihv, ihl, ihf⟩ := ih
    refine ⟨?_, ?_, ?_⟩
    · intro v i hc hn
      cases v with
      | undef => simp [cleanVal] at hc
      | num nn => simp [cleanVal] at hc
      | null => simp [jsize, jxToChars]
      | bool b => cases b <;> simp [jsize, jxToChars]
      | str s =>
        have := escChars_len s.data
        simp only [jsize, jxToChars, List.length_cons, List.length_append,
          List.length_singleton]
        omega
      | arr xs =>
        cases xs with
        | nil => simp [jsize, jsizeL, jxToChars]
        | cons x xs' =>
          rw [cleanVal] at hc
          have hl := ihl (.cons x xs') (i + 2) hc (by
            simp only [jsize] at hn
            omega)
          simp only [jsize] at hn ⊢
          simp only [jxToChars, List.length_cons, List.length_append,
            List.length_singleton, spaces, List.length_replicate]
          omega
      | obj fs =>
        cases fs with
        | nil => simp [jsize, jsizeF, jxToChars, jxObjItems]
        | cons k v2 fs2 =>
          rw [cleanVal] at hc
          rw [show cleanFields (.cons k v2 fs2) =
            (cleanVal v2 && cleanFields fs2) from rfl,
            Bool.and_eq_true] at hc
          have hf := ihf (.cons k v2 fs2) (i + 2) (by
            rw [show cleanFields (.cons k v2 fs2) =
              (cleanVal v2 && cleanFields fs2) from rfl, Bool.and_eq_true]
            exact hc) (by
            simp only [jsize] at hn
            omega)
          rw [jxToChars_obj_cons hc.1]
          simp only [jsize] at hn ⊢
          simp only [List.length_cons, List.length_append,
            List.length_singleton, spaces, List.length_replicate]
          omega
    · intro xs i hc hn
      cases xs with
      | nil =>
        simp only [jsizeL, jxArrItems, joinFrags, List.length_nil]
        omega
      | cons x xs' =>
        rw [show cleanList (.cons x xs') =
          (cleanVal x && cleanList xs') from rfl, Bool.and_eq_true] at hc
        have hx := ihv x i hc.1 (by
          have := jsizeL_pos xs'
          simp only [jsizeL] at hn
          omega)
        cases xs' with
        | nil =>
          simp only [jsizeL, jxArrItems, joinFrags, List.length_append,
            spaces, List.length_replicate]
          omega
        | cons y ys =>
          have hl := ihl (.cons y ys) i hc.2 (by
            have := jsize_pos x
            simp only [jsizeL] at hn ⊢
            omega)
          simp only [jsizeL] at hn hl ⊢
          simp only [jxArrItems, joinFrags, List.length_append,
            List.length_cons, spaces, List.length_replicate] at hl ⊢
          omega
    · intro fs i hc hn
      cases fs with
      | nil =>
        simp only [jsizeF, jxObjItems, joinFrags, List.length_nil]
        omega
      | cons k v2 fs2 =>
        rw [show cleanFields (.cons k v2 fs2) =
          (cleanVal v2 && cleanFields fs2) from rfl, Bool.and_eq_true] at hc
        have hv2 := ihv v2 i hc.1 (by
          have := jsizeF_pos fs2
          simp only [jsizeF] at hn
          omega)
        have hesc := escChars_len k.data
        rw [jxObjItems_cons hc.1]
        cases fs2 with
        | nil =>
          simp only [jsizeF, jxObjItems, joinFrags, List.length_append,
            List.length_cons, spaces, List.length_replicate]
          omega
        | cons k3 v3 fs3 =>
          rw [show cleanFields (.cons k3 v3 fs3) =
            (cleanVal v3 && cleanFields fs3) from rfl,
            Bool.and_eq_true] at hc
          have hf := ihf (.cons k3 v3 fs3) i (by
            rw [show cleanFields (.cons k3 v3 fs3) =
              (cleanVal v3 && cleanFields fs3) from rfl, Bool.and_eq_true]
            exact hc.2) (by
            have := jsize_pos v2
            simp only [jsizeF] at hn ⊢
            omega)
          rw [jxObjItems_cons hc.2.1] at hf ⊢
          simp only [jsizeF] at hn hf ⊢
          simp only [joinFrags, List.length_append, List.length_cons,
            spaces, List.length_replicate] at hf ⊢
          omega

/-- `JSON.parse` inverts `JSON.stringify(v, null, 2)` on schema-clean
values. -/
theorem parse_stringify_clean (v : Jx) (h : cleanVal v = true) :
    jsonParse (jsonStringify v) = some v := by
  have hlen : jsize v ≤ (jxToChars 0 v).length + 1 :=
    le_trans ((jsize_bounds (jsize v)).1 v 0 h le_rfl) (Nat.le_succ _)
  have hp := (parse_roundtrip ((jxToChars 0 v).length + 1)).1 v 0 [] []
    rfl h hlen
  rw [List.nil_append, List.append_nil] at hp
  unfold jsonParse jsonStringify
  simp only [hp]
  rfl

end Kaviron
namespace Kaviron

/-- C7 counterexample: the round-trip claim fails for stored episodes in
general. `saveEpisode` persists `invalidEpisode` even though it fails
validation (the missing title), `exportEpisodeToJSON` then exports it, and
`importEpisodeFromJSON` refuses the exported JSON with the first validation
failure, leaving the store unchanged — so export → import → export never
reproduces the first export for this stored episode. -/
theorem export_import_export_counterexample :
    validateEpisode invalidEpisode = some "Episode title is required" ∧
    (saveEpisode emptyDB invalidEpisode "t0" 1 false false).1 =
      .ok "bad1" ∧
    exportEpisodeToJSON
      (saveEpisode emptyDB invalidEpisode "t0" 1 false false).2 "bad1" =
      .ok (jsonStringify invalidEpisode) ∧
    importEpisodeFromJSON
      (saveEpisode emptyDB invalidEpisode "t0" 1 false false).2
      (jsonStringify invalidEpisode) "t1" 2 false false =
      (.error "Failed to import episode: Episode title is required",
        (saveEpisode emptyDB invalidEpisode "t0" 1 false false).2) :=
  ⟨rfl, rfl, rfl, rfl⟩

/-- C7 (amended): exporting a stored, schema-clean episode record yields
JSON free of any `lastModified` field. When the stripped record passes
`validateEpisode`, export, then `importEpisodeFromJSON` of the exported
text, then export again reproduces the first export byte for byte — the
only difference between the stored and re-imported record is the re-stamped
`lastModified` timestamp, which export strips. When the stripped record
fails validation with some message — possible, since `saveEpisode` persists
invalid episodes — the import of the exported text is refused with that
message and the store is unchanged, so the round-trip composition fails. -/
theorem export_import_behavior
    (db : DB) (id : String) (fs : JxFields) (nowIso : String) (nowMs : Nat)
    (hid : (id == "") = false)
    (hget : getRec db.episodes id = some (.obj fs))
    (hkid : fs.get "id" = .str id)
    (hclean : cleanFields fs = true) :
    ∃ out : String,
      exportEpisodeToJSON db id = .ok out ∧
      (fs.removeField "lastModified").hasKey "lastModified" = false ∧
      (validateEpisode (.obj (fs.removeField "lastModified")) = none →
        ∃ db' : DB,
          importEpisodeFromJSON db out nowIso nowMs false false =
            (.ok id, db') ∧
          exportEpisodeToJSON db' id = .ok out) ∧
      ∀ msg : String,
        validateEpisode (.obj (fs.removeField "lastModified")) = some msg →
          importEpisodeFromJSON db out nowIso nowMs false false =
            (.error ("Failed to import episode: " ++ msg), db) := by
  have hclean' : cleanFields (fs.removeField "lastModified") = true :=
    cleanFields_removeField fs _ hclean
  have hgid : (fs.removeField "lastModified").get "id" = .str id :=
    (JxFields.get_removeField fs "id" "lastModified" (by decide)).trans hkid
  have hexp1 : exportEpisodeToJSON db id =
      .ok (jsonStringify (.obj (fs.removeField "lastModified"))) := by
    unfold exportEpisodeToJSON
    simp only [hid, Bool.false_eq_true, if_false, hget]
    rfl
  have hparse : jsonParse (jsonStringify (.obj (fs.removeField
      "lastModified"))) = some (.obj (fs.removeField "lastModified")) :=
    parse_stringify_clean _ hclean'
  refine ⟨jsonStringify (.obj (fs.removeField "lastModified")), hexp1,
    JxFields.hasKey_removeField fs "lastModified", ?_, ?_⟩
  · intro hval
    unfold importEpisodeFromJSON
    rw [hparse]
    dsimp only
    rw [hval]
    dsimp only
    unfold saveEpisode
    dsimp only [Jx.get]
    rw [hgid]
    simp only [jsFalsy, hid, Bool.or_false, Bool.false_eq_true, if_false,
      Bool.or_self]
    dsimp only [jsToKey]
    refine ⟨_, rfl, ?_⟩
    have hrk : recKey ((Jx.obj (fs.removeField "lastModified")).spreadSet
        "lastModified" (Jx.str nowIso)) = id := by
      unfold recKey
      dsimp only [Jx.spreadSet, Jx.get]
      rw [JxFields.get_spreadSet_ne (fs.removeField "lastModified")
        "lastModified" (Jx.str nowIso) "id" (by decide)]
      rw [hgid]
      rfl
    have hgu := getRec_upsertRec db.episodes
      ((Jx.obj (fs.removeField "lastModified")).spreadSet "lastModified"
        (Jx.str nowIso))
    rw [hrk] at hgu
    unfold exportEpisodeToJSON
    simp only [hid, Bool.false_eq_true, if_false]
    rw [hgu]
    dsimp only [Jx.spreadSet, Jx.removeField]
    rw [JxFields.spreadSet_removeField]
    rw [JxFields.removeField_of_not_hasKey (fs.removeField "lastModified")
      "lastModified" (JxFields.hasKey_removeField fs "lastModified")]
  · intro msg hval
    unfold importEpisodeFromJSON
    rw [hparse]
    dsimp only
    rw [hval]

/-- The amended round-trip behavior at a concrete stored episode: its
stripped record validates, so the import branch succeeds and the second
export reproduces the first. -/
theorem export_import_behavior_witness :
    ∃ out : String,
      exportEpisodeToJSON roundtripDB "e1" = .ok out ∧
      (validEpisodeFields.removeField "lastModified").hasKey
        "lastModified" = false ∧
      (validateEpisode (.obj (validEpisodeFields.removeField
          "lastModified")) = none →
        ∃ db' : DB,
          importEpisodeFromJSON roundtripDB out "2024-01-01" 5 false
            false = (.ok "e1", db') ∧
          exportEpisodeToJSON db' "e1" = .ok out) ∧
      ∀ msg : String,
        validateEpisode (.obj (validEpisodeFields.removeField
            "lastModified")) = some msg →
          importEpisodeFromJSON roundtripDB out "2024-01-01" 5 false
            false =
            (.error ("Failed to import episode: " ++ msg), roundtripDB) :=
  export_import_behavior roundtripDB "e1" validEpisodeFields
    "2024-01-01" 5 (by decide) rfl rfl (by decide)

end Kaviron
